import Mathlib

/-!
Verification development for the simplerig durable-orchestration core.

The Python sources (simplerig/events.py, simplerig/runner.py,
simplerig/scheduler.py) are shallowly embedded: Python's dynamically typed
JSON-like values become the inductive type `PyVal`, exceptions become the
`Except PyErr` monad, in-place mutation becomes explicit state passing, and
`dict` / `set` become insertion-ordered association lists.  External library
calls (hashlib digests, `json.dumps`, wall-clock timestamps) are abstracted
by injective or constant stand-ins, documented at each definition; no claim
proved below depends on a property of those stand-ins beyond what the
repository code itself uses.
-/

namespace SimpleRig

/-- Model of a Python value as produced by `json.loads` and manipulated by
the event pipeline.  JSON numbers are modelled as integers (no claim in
scope involves floats); `vBytes` models Python `bytes`. -/
inductive PyVal where
  | vNone : PyVal
  | vBool : Bool → PyVal
  | vInt : Int → PyVal
  | vStr : String → PyVal
  | vBytes : List Nat → PyVal
  | vList : List PyVal → PyVal
  | vDict : List (String × PyVal) → PyVal

/-- Python exception kinds raised by the embedded code paths. -/
inductive PyErr where
  | jsonDecodeError : PyErr
  | typeError : PyErr
  | attributeError : PyErr
  | keyError : PyErr
deriving DecidableEq

/-- Remove the first occurrence of key `k` from an association list and
return its value together with the remainder (helper for Python dict
equality). -/
def dictExtract (k : String) : List (String × PyVal) → Option (PyVal × List (String × PyVal))
  | [] => none
  | (k2, w) :: rest =>
    if k2 = k then some (w, rest)
    else match dictExtract k rest with
      | none => none
      | some (w2, rest2) => some (w2, (k2, w) :: rest2)

mutual
/-- Python `==` on values: structural, except that `bool` compares equal to
the corresponding `int` (Python's `True == 1`) and dict comparison is
key-set based rather than order based. -/
def pyEq : PyVal → PyVal → Bool
  | .vNone, .vNone => true
  | .vBool a, .vBool b => a == b
  | .vBool a, .vInt n => (if a then (1 : Int) else 0) == n
  | .vInt n, .vBool a => n == (if a then (1 : Int) else 0)
  | .vInt a, .vInt b => a == b
  | .vStr a, .vStr b => a == b
  | .vBytes a, .vBytes b => a == b
  | .vList a, .vList b => pyEqList a b
  | .vDict a, .vDict b => pyEqDict a b
  | _, _ => false

/-- Python `==` on lists: elementwise. -/
def pyEqList : List PyVal → List PyVal → Bool
  | [], [] => true
  | a :: as_, b :: bs => pyEq a b && pyEqList as_ bs
  | _, _ => false

/-- Python `==` on dicts: every key of the left dict appears on the right
with an equal value, and nothing is left over. -/
def pyEqDict : List (String × PyVal) → List (String × PyVal) → Bool
  | [], b => b.isEmpty
  | (k, v) :: rest, b =>
    match dictExtract k b with
    | none => false
    | some (w, b2) => pyEq v w && pyEqDict rest b2
end

/-- Whether a Python value is hashable (usable as a dict key / set member).
Lists and dicts are unhashable. -/
def PyVal.hashable : PyVal → Bool
  | .vList _ => false
  | .vDict _ => false
  | _ => true

/-- Whether a Python value is a dict. -/
def PyVal.isDict : PyVal → Bool
  | .vDict _ => true
  | _ => false

/-- `d.get(k, default)` on a genuine dict pair list. -/
def dictGetD (d : List (String × PyVal)) (k : String) (dflt : PyVal) : PyVal :=
  match List.lookup k d with
  | some v => v
  | none => dflt

/-- Python `value.get(k, default)`: an `AttributeError` unless `value` is a
dict. -/
def pyGet (v : PyVal) (k : String) (dflt : PyVal) : Except PyErr PyVal :=
  match v with
  | .vDict d => .ok (dictGetD d k dflt)
  | _ => .error .attributeError

/-- Python `needle in container` for a string needle: dict key membership,
list element membership, substring test on strings; `TypeError` otherwise.
The substring test is `strContainsSub` defined below. -/
def containsSub (pat : List Char) : List Char → Bool
  | [] => pat.isPrefixOf []
  | c :: t => pat.isPrefixOf (c :: t) || containsSub pat t

def pyContainsStr (needle : String) (container : PyVal) : Except PyErr Bool :=
  match container with
  | .vDict d => .ok (d.any (fun kv => kv.1 == needle))
  | .vList l => .ok (l.any (fun x => pyEq (.vStr needle) x))
  | .vStr s => .ok (containsSub needle.data s.data)
  | _ => .error .typeError

/-- Python `container[k]` for a string subscript: dict lookup (`KeyError`
when absent), `TypeError` on any non-dict. -/
def pySubscriptStr (container : PyVal) (k : String) : Except PyErr PyVal :=
  match container with
  | .vDict d =>
    match List.lookup k d with
    | some v => .ok v
    | none => .error .keyError
  | _ => .error .typeError

/-- Membership test of a value in a Python set (modelled as a list without
duplicates w.r.t. `pyEq`); unhashable values raise `TypeError`. -/
def pySetMem (x : PyVal) (s : List PyVal) : Except PyErr Bool :=
  if x.hashable then .ok (s.any (fun y => pyEq x y)) else .error .typeError

/-- `set.add`: insertion-ordered, idempotent w.r.t. `pyEq`; unhashable
values raise `TypeError`. -/
def pySetAdd (s : List PyVal) (x : PyVal) : Except PyErr (List PyVal) :=
  if x.hashable then .ok (if s.any (fun y => pyEq x y) then s else s ++ [x])
  else .error .typeError

/-- Insertion-ordered dict update with string keys: replace the value in
place when the key is present (keeping the original key object, as CPython
does), append otherwise. -/
def upsertStr {α : Type} (m : List (String × α)) (k : String) (v : α) : List (String × α) :=
  if m.any (fun p => p.1 == k) then m.map (fun p => if p.1 == k then (p.1, v) else p)
  else m ++ [(k, v)]

/-- Python `str.replace(old, new)` worker over character lists, scanning
left to right; `fuel` bounds the recursion and every call supplies
`s.length`, which always suffices because each step consumes at least one
character. -/
def str_replace_go (old rep : List Char) : Nat → List Char → List Char
  | _, [] => []
  | 0, s => s
  | fuel + 1, c :: t =>
    if old.isPrefixOf (c :: t) then rep ++ str_replace_go old rep fuel ((c :: t).drop old.length)
    else c :: str_replace_go old rep fuel t

/-- Python `s.replace(old, rep)`.  CPython's empty-pattern interspersal
case is not modelled (the repository only ever replaces the non-empty
pattern "artifacts/"). -/
def str_replace (s old rep : String) : String :=
  if old.data = [] then s
  else String.mk (str_replace_go old.data rep.data s.data.length s.data)

-- ========== Sensitive-information redaction (events.py) ==========

/-- Key names to redact (exact match, case-insensitive) — `SENSITIVE_KEYS`. -/
def SENSITIVE_KEYS : List String :=
  ["api_key", "apikey", "api-key", "api_token",
   "secret", "secret_key", "secretkey", "secret_token",
   "password", "passwd", "pwd",
   "token", "access_token", "refresh_token", "bearer_token", "auth_token",
   "credential", "credentials",
   "auth", "auth_key", "authorization",
   "private_key", "privatekey"]

/-- Keys that must never be redacted even though they contain sensitive
substrings — `SAFE_KEYS`. -/
def SAFE_KEYS : List String :=
  ["token_usage", "prompt_tokens", "completion_tokens", "total_tokens",
   "token_count", "tokens"]

/-- `str.lower()`, characterwise (ASCII keys only appear in the sources). -/
def str_lower (s : String) : String := String.mk (s.data.map Char.toLower)

/-- `is_sensitive_key`: case-insensitive check of the key against the safe
list first, then the sensitive list. -/
def is_sensitive_key (key : String) : Bool :=
  if SAFE_KEYS.contains (str_lower key) then false
  else SENSITIVE_KEYS.contains (str_lower key)

mutual
/-- `sanitize_value`: strings are returned as-is (the source's long-string
branch returns the value in both arms), dicts and lists recurse, everything
else is unchanged. -/
def sanitize_value : PyVal → PyVal
  | .vStr s => if 20 < s.length && s.data.any Char.isAlphanum then .vStr s else .vStr s
  | .vDict l => .vDict (sanitize_dict l)
  | .vList l => .vList (sanitize_list l)
  | v => v

/-- Elementwise `sanitize_value` over a list (the source's comprehension
`[sanitize_value(v) for v in value]`). -/
def sanitize_list : List PyVal → List PyVal
  | [] => []
  | v :: rest => sanitize_value v :: sanitize_list rest

/-- `sanitize_dict`: sensitive keys get "[REDACTED]"; otherwise dict values
recurse via `sanitize_dict`, list values elementwise via `sanitize_value`,
and all other values pass through unchanged. -/
def sanitize_dict : List (String × PyVal) → List (String × PyVal)
  | [] => []
  | (k, v) :: rest =>
    (k, if is_sensitive_key k then .vStr "[REDACTED]"
        else match v with
          | .vDict l => .vDict (sanitize_dict l)
          | .vList l => .vList (sanitize_list l)
          | w => w) :: sanitize_dict rest
end

-- ========== Event data model (events.py) ==========

/-- The `Event` dataclass.  Fields hold arbitrary Python values because
`Event.from_json` performs no type validation (`cls(**obj)` on a plain
dataclass). -/
structure Event where
  type : PyVal
  timestamp : PyVal
  seq : PyVal := .vInt 0
  run_id : PyVal := .vStr ""
  data : PyVal := .vDict []

/-- `Event.create`: the wall-clock ISO timestamp from `datetime.now()` is
abstracted as the constant empty string; no claim in scope depends on its
value. -/
def Event.create (event_type : String) (run_id : String) (data : List (String × PyVal)) : Event :=
  { type := .vStr event_type, timestamp := .vStr "",
    run_id := .vStr run_id, data := .vDict data }

/-- The keyword parameters accepted by the `Event` dataclass constructor. -/
def EVENT_FIELDS : List String := ["type", "timestamp", "seq", "run_id", "data"]

/-- One raw log line, represented by the outcome of `json.loads` on it:
`none` when decoding fails (`json.JSONDecodeError`), otherwise the decoded
value.  Blank lines are filtered out before decoding by the readers and are
therefore not represented. -/
abbrev JsonLine : Type := Option PyVal

/-- `Event.from_json`: `json.loads` then `cls(**obj)`.  The splat raises
`TypeError` when the decoded value is not a mapping, mentions an unexpected
keyword, or omits the required `type` / `timestamp` parameters; field
values are bound without validation. -/
def Event.from_json (line : JsonLine) : Except PyErr Event :=
  match line with
  | none => .error .jsonDecodeError
  | some v =>
    match v with
    | .vDict obj =>
      if (obj.all (fun kv => EVENT_FIELDS.contains kv.1)) = false then .error .typeError
      else if (obj.any (fun kv => kv.1 == "type")) = false then .error .typeError
      else if (obj.any (fun kv => kv.1 == "timestamp")) = false then .error .typeError
      else .ok { type := dictGetD obj "type" .vNone,
                 timestamp := dictGetD obj "timestamp" .vNone,
                 seq := dictGetD obj "seq" (.vInt 0),
                 run_id := dictGetD obj "run_id" (.vStr ""),
                 data := dictGetD obj "data" (.vDict []) }
    | _ => .error .typeError

/-- `sanitize_event`: rebuild the event with sanitized data.  Iterating a
non-dict `data` raises `AttributeError`. -/
def sanitize_event (e : Event) : Except PyErr Event :=
  match e.data with
  | .vDict d =>
    .ok { type := e.type, timestamp := e.timestamp, seq := e.seq,
          run_id := e.run_id, data := .vDict (sanitize_dict d) }
  | _ => .error .attributeError

-- ========== EventWriter (events.py) ==========

/-- The writer's mutable state: the `_seq` counter and the `sanitize`
flag. -/
structure EventWriter where
  seq : Int := 0
  sanitize : Bool := true

/-- `EventWriter._init_seq`: scan an existing log for the maximal prior
`seq`; any exception on a line (decode failure, non-numeric `seq`) is
swallowed by the bare `except`.  A fresh (empty) log yields 0. -/
def EventWriter.init_seq (lines : List JsonLine) : Int :=
  lines.foldl (fun acc l =>
    match Event.from_json l with
    | .ok ev =>
      match ev.seq with
      | .vInt n => max acc n
      | .vBool b => max acc (if b then 1 else 0)
      | _ => acc
    | .error _ => acc) 0

/-- `EventWriter.write`: allocate the next sequence number, stamp it on the
event, optionally sanitize, append (file IO abstracted away), and return
the written event with the updated writer state. -/
def EventWriter.write (w : EventWriter) (e : Event) : Except PyErr (Event × EventWriter) :=
  let seq2 := w.seq + 1
  let e2 := { e with seq := .vInt seq2 }
  let w2 := { w with seq := seq2 }
  if w.sanitize then
    match sanitize_event e2 with
    | .ok e3 => .ok (e3, w2)
    | .error err => .error err
  else .ok (e2, w2)

/-- A sequence of successive `EventWriter.write` calls, threading the
writer state and collecting the returned events in order. -/
def EventWriter.write_sequence (w : EventWriter) : List Event → Except PyErr (List Event × EventWriter)
  | [] => .ok ([], w)
  | e :: es => do
    let (e2, w2) ← w.write e
    let (es2, w3) ← EventWriter.write_sequence w2 es
    .ok (e2 :: es2, w3)

-- ========== EventReader (events.py) ==========

/-- `EventReader.read_all`: parse every line independently; a line whose
JSON decoding fails is skipped (`except json.JSONDecodeError: continue`);
any other parse exception — notably the `TypeError` from `Event(**obj)` on
a JSON-decodable but malformed line — propagates to the caller. -/
def EventReader.read_all : List JsonLine → Except PyErr (List Event)
  | [] => .ok []
  | l :: rest =>
    match Event.from_json l with
    | .error .jsonDecodeError => EventReader.read_all rest
    | .error e => .error e
    | .ok ev => do
      let evs ← EventReader.read_all rest
      .ok (ev :: evs)

-- ========== ArtifactStore (events.py) ==========

/-- The `artifacts/` directory contents: relative file name to byte
content. -/
abbrev Store : Type := List (String × List Nat)

/-- Stand-in for `hashlib.sha256(...).hexdigest()`.  The embedded code only
ever compares recorded digests against recomputed digests of concrete byte
strings, so no property of the digest function is assumed. -/
def sha256_hexdigest (bs : List Nat) : String := toString bs

/-- `ArtifactRef` dataclass; fields hold arbitrary Python values because
the state reconstructor rebuilds refs from unvalidated event data. -/
structure ArtifactRef where
  ref : PyVal
  sha256 : PyVal
  size : PyVal
  mime : PyVal := .vStr "application/octet-stream"

/-- `ArtifactRef.to_dict` (`dataclasses.asdict`, field order preserved). -/
def ArtifactRef.to_dict (r : ArtifactRef) : PyVal :=
  .vDict [("ref", r.ref), ("sha256", r.sha256), ("size", r.size), ("mime", r.mime)]

/-- `ArtifactStore.MIME_TYPES`. -/
def MIME_TYPES : List (String × String) :=
  [(".json", "application/json"), (".jsonl", "application/x-ndjson"),
   (".txt", "text/plain"), (".md", "text/markdown"), (".py", "text/x-python"),
   (".yaml", "application/x-yaml"), (".yml", "application/x-yaml"),
   (".html", "text/html"), (".xml", "application/xml"), (".csv", "text/csv")]

/-- The final path component of a relative artifact name (the characters
after the last slash; pathlib's trailing-slash normalization is not
modelled). -/
def lastComponent (s : String) : String :=
  String.mk ((s.data.reverse.takeWhile (fun c => c != '/')).reverse)

/-- `PurePath.suffix` of a file name: the substring from the last dot,
provided the dot is neither the first nor the last character. -/
def path_suffix (nm : String) : String :=
  let cs := nm.data
  match (cs.enum.filter (fun p => p.2 == '.')).getLast? with
  | some p => if 0 < p.1 && p.1 < cs.length - 1 then String.mk (cs.drop p.1) else ""
  | none => ""

/-- `ArtifactStore.write` over the final byte representation of the
content.  The str/bytes branches pass their bytes straight through; the
dict/list branch's `json.dumps` serialization (and its implied
`application/json` mime) is an external-library step orthogonal to the
integrity logic and is performed by the caller of this model. -/
def ArtifactStore.write (fs : Store) (name : String) (content_bytes : List Nat)
    (mime : Option String) : Store × ArtifactRef :=
  let sha := sha256_hexdigest content_bytes
  let mimeR := match mime with
    | some m => m
    | none => match List.lookup (str_lower (path_suffix (lastComponent name))) MIME_TYPES with
      | some m => m
      | none => "application/octet-stream"
  (upsertStr fs name content_bytes,
   { ref := .vStr ("artifacts/" ++ name), sha256 := .vStr sha,
     size := .vInt content_bytes.length, mime := .vStr mimeR })

/-- `ArtifactStore.verify`: strip every "artifacts/" occurrence from the
ref path (CPython `str.replace`), read the file, and compare digest and
size.  A non-string ref raises `AttributeError` (no `.replace`). -/
def ArtifactStore.verify (fs : Store) (ref : ArtifactRef) : Except PyErr Bool :=
  match ref.ref with
  | .vStr rf =>
    let name := str_replace rf "artifacts/" ""
    match List.lookup name fs with
    | none => .ok false
    | some content =>
      .ok (pyEq (.vStr (sha256_hexdigest content)) ref.sha256 &&
           pyEq (.vInt content.length) ref.size)
  | _ => .error .attributeError

-- ========== Stage definitions and run state (runner.py) ==========

/-- The `Stage` dataclass.  The `handler` function field is an opaque
collaborator and plays no part in the claims modelled here, so it is
omitted. -/
structure Stage where
  name : String
  depends_on : List String := []
  required_inputs : List String := []
  outputs : List String := []

/-- A lightweight per-task projection kept in `RunState.tasks`: the Python
dict `{"status": ..., "data": ...}` optionally extended with `output` /
`error` keys (absent keys are `none`). -/
structure TaskProj where
  status : String
  data : PyVal
  output : Option PyVal := none
  error : Option PyVal := none

/-- `RunState`, rebuilt from the event stream.  Python sets become
insertion-ordered duplicate-free lists; fields assigned from unvalidated
event data hold arbitrary `PyVal`s. -/
structure RunState where
  run_id : String
  requirement : PyVal := .vStr ""
  status : String := "unknown"
  current_stage : PyVal := .vStr ""
  completed_stages : List PyVal := []
  failed_stages : List PyVal := []
  skipped_stages : List PyVal := []
  artifacts : List (String × ArtifactRef) := []
  tasks : List (PyVal × TaskProj) := []
  last_event_seq : PyVal := .vInt 0
  start_time : PyVal := .vStr ""
  end_time : PyVal := .vStr ""

/-- `RunState(run_id=...)` with dataclass defaults. -/
def RunState.init (run_id : String) : RunState := { run_id := run_id }

/-- `RunState.is_stage_done`. -/
def RunState.is_stage_done (st : RunState) (stage_name : String) : Bool :=
  st.completed_stages.any (fun y => pyEq (.vStr stage_name) y) ||
  st.skipped_stages.any (fun y => pyEq (.vStr stage_name) y)

/-- The output-verification loop inside `RunState.can_skip`: each declared
output must be a key of the artifact map and its ref must verify against
the store. -/
def canSkipOutputs (st : RunState) (fs : Store) : List String → Except PyErr Bool
  | [] => .ok true
  | out :: rest =>
    match List.lookup out st.artifacts with
    | none => .ok false
    | some ref => do
      let ok ← ArtifactStore.verify fs ref
      if ok then canSkipOutputs st fs rest else .ok false

/-- `RunState.can_skip`: the stage must be in the completed set and every
declared output must be present and verify. -/
def RunState.can_skip (st : RunState) (stage : Stage) (fs : Store) : Except PyErr Bool :=
  if (st.completed_stages.any (fun y => pyEq (.vStr stage.name) y)) = false then .ok false
  else canSkipOutputs st fs stage.outputs

/-- Membership update for a `PyVal`-keyed dict (used for
`state.tasks[task_id] = ...`); CPython keeps the first-inserted key object
on update. -/
def upsertPy {α : Type} (m : List (PyVal × α)) (k : PyVal) (v : α) : List (PyVal × α) :=
  if m.any (fun p => pyEq p.1 k) then m.map (fun p => if pyEq p.1 k then (p.1, v) else p)
  else m ++ [(k, v)]

/-- `task_id in state.tasks` (a `TypeError` for unhashable keys). -/
def taskMem (k : PyVal) (m : List (PyVal × TaskProj)) : Except PyErr Bool :=
  if k.hashable then .ok (m.any (fun p => pyEq p.1 k)) else .error .typeError

/-- In-place update of one task projection. -/
def modifyTaskProj (m : List (PyVal × TaskProj)) (k : PyVal) (f : TaskProj → TaskProj) :
    List (PyVal × TaskProj) :=
  m.map (fun p => if pyEq p.1 k then (p.1, f p.2) else p)

/-- `event.type == "..."` in the reducer's if/elif chain. -/
def Event.isType (e : Event) (s : String) : Bool := pyEq e.type (.vStr s)

/-- `StateReconstructor._process_event`: the single-event reducer.  Attribute
access, subscripting and set insertion on ill-typed event data raise the
corresponding Python exceptions. -/
def StateReconstructor.process_event (st : RunState) (e : Event) : Except PyErr RunState :=
  let st := { st with last_event_seq := e.seq }
  if e.isType "run.started" then do
    let req ← pyGet e.data "requirement" (.vStr "")
    .ok { st with status := "running", requirement := req, start_time := e.timestamp }
  else if e.isType "run.completed" then
    .ok { st with status := "completed", end_time := e.timestamp }
  else if e.isType "run.failed" then
    .ok { st with status := "failed", end_time := e.timestamp }
  else if e.isType "run.aborted" then
    .ok { st with status := "aborted", end_time := e.timestamp }
  else if e.isType "stage.started" then do
    let s ← pyGet e.data "stage" (.vStr "")
    .ok { st with current_stage := s }
  else if e.isType "stage.completed" then do
    let s ← pyGet e.data "stage" (.vStr "")
    let comp ← pySetAdd st.completed_stages s
    let cur := if pyEq st.current_stage s then PyVal.vStr "" else st.current_stage
    .ok { st with completed_stages := comp, current_stage := cur }
  else if e.isType "stage.failed" then do
    let s ← pyGet e.data "stage" (.vStr "")
    let fl ← pySetAdd st.failed_stages s
    .ok { st with failed_stages := fl }
  else if e.isType "stage.skipped" then do
    let s ← pyGet e.data "stage" (.vStr "")
    let sk ← pySetAdd st.skipped_stages s
    .ok { st with skipped_stages := sk }
  else if e.isType "artifact.written" then do
    let ad ← pyGet e.data "artifact" (.vDict [])
    let hasRef ← pyContainsStr "ref" ad
    if hasRef then do
      let rv ← pySubscriptStr ad "ref"
      match rv with
      | .vStr r => do
        let nm := str_replace r "artifacts/" ""
        let refv ← pyGet ad "ref" (.vStr "")
        let shav ← pyGet ad "sha256" (.vStr "")
        let sizev ← pyGet ad "size" (.vInt 0)
        let mimev ← pyGet ad "mime" (.vStr "application/octet-stream")
        let newRef : ArtifactRef := { ref := refv, sha256 := shav, size := sizev, mime := mimev }
        .ok { st with artifacts := upsertStr st.artifacts nm newRef }
      | _ => .error .attributeError
    else .ok st
  else if e.isType "task.created" then do
    let tid ← pyGet e.data "task_id" (.vStr "")
    if tid.hashable then
      .ok { st with tasks := upsertPy st.tasks tid { status := "pending", data := e.data } }
    else .error .typeError
  else if e.isType "task.started" then do
    let tid ← pyGet e.data "task_id" (.vStr "")
    let mem ← taskMem tid st.tasks
    if mem then
      .ok { st with tasks := modifyTaskProj st.tasks tid (fun p => { p with status := "running" }) }
    else .ok st
  else if e.isType "task.completed" then do
    let tid ← pyGet e.data "task_id" (.vStr "")
    let mem ← taskMem tid st.tasks
    if mem then do
      let out ← pyGet e.data "output" .vNone
      let upd := modifyTaskProj st.tasks tid (fun p => { p with status := "completed", output := some out })
      .ok { st with tasks := upd }
    else .ok st
  else if e.isType "task.failed" then do
    let tid ← pyGet e.data "task_id" (.vStr "")
    let mem ← taskMem tid st.tasks
    if mem then do
      let err ← pyGet e.data "error" .vNone
      let upd := modifyTaskProj st.tasks tid (fun p => { p with status := "failed", error := some err })
      .ok { st with tasks := upd }
    else .ok st
  else if e.isType "task.skipped" then do
    let tid ← pyGet e.data "task_id" (.vStr "")
    let mem ← taskMem tid st.tasks
    if mem then
      .ok { st with tasks := modifyTaskProj st.tasks tid (fun p => { p with status := "skipped" }) }
    else .ok st
  else .ok st

/-- The body of `StateReconstructor.reconstruct`: lazily iterate the log
lines (as `iter_events` does — a decode failure is skipped, any other parse
error propagates) and fold `_process_event` over the parsed events. -/
def StateReconstructor.reconstruct_go (st : RunState) : List JsonLine → Except PyErr RunState
  | [] => .ok st
  | l :: rest =>
    match Event.from_json l with
    | .error .jsonDecodeError => StateReconstructor.reconstruct_go st rest
    | .error e => .error e
    | .ok ev => do
      let st2 ← StateReconstructor.process_event st ev
      StateReconstructor.reconstruct_go st2 rest

/-- `StateReconstructor.reconstruct`: a pure fold from the empty `RunState`
over the event log; its output depends on nothing but `run_id` (the run
directory name) and the log lines. -/
def StateReconstructor.reconstruct (run_id : String) (lines : List JsonLine) :
    Except PyErr RunState :=
  StateReconstructor.reconstruct_go (RunState.init run_id) lines

-- ========== Task graph and parallel scheduler (scheduler.py) ==========

/-- `TaskStatus` enum. -/
inductive TaskStatus where
  | pending | ready | running | completed | failed | skipped | cancelled
deriving DecidableEq

/-- The `Task` dataclass.  `description`, `metadata` and the wall-clock
`start_time` / `end_time` fields are inert bookkeeping irrelevant to every
claim in scope and are omitted. -/
structure Task where
  id : String
  name : String
  dependencies : List String := []
  parallel_group : Int := 0
  status : TaskStatus := .pending
  retry_count : Nat := 0
  max_retries : Nat := 3
  output : Option ArtifactRef := none
  error : Option String := none

/-- `TaskResult` dataclass. -/
structure TaskResult where
  task_id : String
  status : TaskStatus
  output : Option ArtifactRef := none
  error : Option String := none
  duration_ms : Int := 0

/-- The `TaskGraph.tasks` dict: insertion-ordered map from task id to
task. -/
abbrev TaskGraph : Type := List (String × Task)

/-- `TaskGraph.add_task`. -/
def TaskGraph.add_task (g : TaskGraph) (t : Task) : TaskGraph := upsertStr g t.id t

/-- `TaskGraph.get_task`. -/
def TaskGraph.get_task (g : TaskGraph) (task_id : String) : Option Task :=
  List.lookup task_id g

/-- `TaskGraph.get_ready_tasks`: the pending tasks whose every dependency
id maps to an existing task that is completed or skipped (`tasks.get(dep)`
is truthy for any Task object, so an absent dependency is never
satisfied). -/
def TaskGraph.get_ready_tasks (g : TaskGraph) : List Task :=
  (g.map Prod.snd).filter (fun t =>
    t.status == TaskStatus.pending &&
    t.dependencies.all (fun dep =>
      match List.lookup dep g with
      | some td => td.status == TaskStatus.completed || td.status == TaskStatus.skipped
      | none => false))

/-- In-place update of the task stored under `task_id` (a no-op when the
id is absent, matching the `if task_id in self.tasks` guards). -/
def TaskGraph.update (g : TaskGraph) (task_id : String) (f : Task → Task) : TaskGraph :=
  g.map (fun p => if p.1 == task_id then (p.1, f p.2) else p)

/-- `TaskGraph.mark_running` (start timestamp omitted). -/
def TaskGraph.mark_running (g : TaskGraph) (task_id : String) : TaskGraph :=
  g.update task_id (fun t => { t with status := .running })

/-- `TaskGraph.mark_completed` (end timestamp omitted). -/
def TaskGraph.mark_completed (g : TaskGraph) (task_id : String) (output : Option ArtifactRef) :
    TaskGraph :=
  g.update task_id (fun t => { t with status := .completed, output := output })

/-- `TaskGraph.mark_failed` (end timestamp omitted). -/
def TaskGraph.mark_failed (g : TaskGraph) (task_id : String) (error : Option String) : TaskGraph :=
  g.update task_id (fun t => { t with status := .failed, error := error })

/-- `TaskGraph.mark_skipped`. -/
def TaskGraph.mark_skipped (g : TaskGraph) (task_id : String) : TaskGraph :=
  g.update task_id (fun t => { t with status := .skipped })

/-- `TaskGraph.mark_cancelled`. -/
def TaskGraph.mark_cancelled (g : TaskGraph) (task_id : String) : TaskGraph :=
  g.update task_id (fun t => { t with status := .cancelled })

/-- `TaskGraph.is_all_done`. -/
def TaskGraph.is_all_done (g : TaskGraph) : Bool :=
  (g.map Prod.snd).all (fun t =>
    t.status == TaskStatus.completed || t.status == TaskStatus.failed ||
    t.status == TaskStatus.skipped || t.status == TaskStatus.cancelled)

/-- `TaskGraph.can_retry`. -/
def TaskGraph.can_retry (g : TaskGraph) (task_id : String) : Bool :=
  match g.get_task task_id with
  | none => false
  | some t => t.retry_count < t.max_retries

/-- `TaskGraph.increment_retry`: bump the count and re-enter the pending
pool. -/
def TaskGraph.increment_retry (g : TaskGraph) (task_id : String) : TaskGraph :=
  g.update task_id (fun t => { t with retry_count := t.retry_count + 1, status := .pending })

/-- `None` / `str` conversion for event payloads. -/
def optStr : Option String → PyVal
  | none => .vNone
  | some s => .vStr s

/-- The scheduler's state: task graph, in-flight futures (each carrying the
result its task computes — the model of a submitted `Future`), collected
results, the shared event writer with its emitted log, and the stop flag.
One `ParallelScheduler.schedule` pass over a fresh run directory starts
from an empty log and a zero-initialized writer. -/
structure Sched where
  graph : TaskGraph
  futures : List (String × TaskResult) := []
  results : List (String × TaskResult) := []
  writer : EventWriter := {}
  log : List Event := []
  should_stop : Bool := false

/-- `self.writer.emit(...)`: create the event and write it through the
sanitizing writer, appending the written event to the log.  The error
branch is unreachable because every scheduler payload is a dict. -/
def Sched.emit (s : Sched) (event_type : String) (run_id : String)
    (data : List (String × PyVal)) : Sched :=
  let ev := Event.create event_type run_id data
  match s.writer.write ev with
  | .ok (e2, w2) => { s with writer := w2, log := s.log ++ [e2] }
  | .error _ => s

/-- `ParallelScheduler._handle_result`: record completion (emitting
`task.completed` and `artifact.written`), or retry / terminally fail a
failed task.  The `retry_count` reported in `task.retrying` reads the task
object after `increment_retry` mutated it (Python aliasing). -/
def ParallelScheduler.handle_result (run_id : String) (s : Sched) (result : TaskResult) : Sched :=
  if result.status == TaskStatus.completed then
    let s := { s with graph := s.graph.mark_completed result.task_id result.output }
    let outv := match result.output with
      | some r => r.to_dict
      | none => PyVal.vNone
    let s := s.emit "task.completed" run_id
      [("task_id", .vStr result.task_id), ("output", outv), ("duration_ms", .vInt result.duration_ms)]
    match result.output with
    | some r => s.emit "artifact.written" run_id [("artifact", r.to_dict)]
    | none => s
  else if result.status == TaskStatus.failed then
    if s.graph.can_retry result.task_id then
      let s := { s with graph := s.graph.increment_retry result.task_id }
      let rc : Int := match s.graph.get_task result.task_id with
        | some t => (t.retry_count : Int)
        | none => 0
      s.emit "task.retrying" run_id
        [("task_id", .vStr result.task_id), ("retry_count", .vInt rc), ("error", optStr result.error)]
    else
      let s := { s with graph := s.graph.mark_failed result.task_id result.error }
      s.emit "task.failed" run_id
        [("task_id", .vStr result.task_id), ("error", optStr result.error),
         ("duration_ms", .vInt result.duration_ms)]
  else s

/-- Submission of one ready task: mark it running, emit `task.started`,
and submit its future (the executor function models
`self.executor.execute`, the pluggable `TaskExecutor` collaborator). -/
def Sched.submit_one (run_id : String) (exec : Task → TaskResult) (s : Sched) (t : Task) : Sched :=
  let s := { s with graph := s.graph.mark_running t.id }
  let s := s.emit "task.started" run_id [("task_id", .vStr t.id)]
  { s with futures := s.futures ++ [(t.id, exec t)] }

/-- The submission loop over the ready list.  The Python `break` once
`len(futures) >= max_workers` is modelled by the persistent guard: the
futures list only grows during the fold, so once the bound is reached no
later task is submitted. -/
def Sched.submit_ready (run_id : String) (exec : Task → TaskResult) (max_workers : Nat)
    (ready : List Task) (s : Sched) : Sched :=
  ready.foldl (fun s t =>
    if max_workers ≤ s.futures.length then s else s.submit_one run_id exec t) s

/-- The scheduler main loop, one completed future handled per iteration.
`oracle` chooses which in-flight future completes next (the
nondeterministic `as_completed` order); `fuel` bounds the iteration count
(the loop itself terminates on `is_all_done` or the stop flag).  This is a
sequentially consistent model of the worker pool: every submitted future
has its result available when it is harvested. -/
def ParallelScheduler.schedule_loop (run_id : String) (exec : Task → TaskResult)
    (oracle : Nat → Nat) (max_workers : Nat) (fail_fast : Bool) :
    Nat → Sched → Sched
  | 0, s => s
  | fuel + 1, s =>
    if s.graph.is_all_done || s.should_stop then s
    else
      let ready := s.graph.get_ready_tasks
      let s1 := Sched.submit_ready run_id exec max_workers ready s
      if s1.futures.isEmpty then
        if ready.isEmpty then s1
        else ParallelScheduler.schedule_loop run_id exec oracle max_workers fail_fast fuel s1
      else
        let k := oracle fuel % s1.futures.length
        match s1.futures.drop k with
        | [] => s1
        | (tid, result) :: post =>
          let s2 := { s1 with futures := s1.futures.take k ++ post }
          let s2 := { s2 with results := upsertStr s2.results tid result }
          let s2 := ParallelScheduler.handle_result run_id s2 result
          if fail_fast && result.status == TaskStatus.failed then
            let g2 := s2.futures.foldl (fun g p => TaskGraph.mark_cancelled g p.1) s2.graph
            ParallelScheduler.schedule_loop run_id exec oracle max_workers fail_fast fuel
              { s2 with graph := g2, should_stop := true }
          else ParallelScheduler.schedule_loop run_id exec oracle max_workers fail_fast fuel s2

/-- `ParallelScheduler.schedule`: add the tasks, emit `task.created` for
each, run the main loop, then drain the futures that were still in flight
when the loop exited (the trailing `for future, task_id in futures.items()`
— in the modelled interleavings the in-flight work has run to completion,
so `future.result()` returns its computed result). -/
def ParallelScheduler.schedule (run_id : String) (exec : Task → TaskResult)
    (oracle : Nat → Nat) (max_workers : Nat) (fail_fast : Bool) (fuel : Nat)
    (tasks : List Task) : Sched :=
  let g : TaskGraph := tasks.foldl TaskGraph.add_task []
  let s0 : Sched := { graph := g }
  let s0 := tasks.foldl (fun s t => s.emit "task.created" run_id
    [("task_id", .vStr t.id), ("name", .vStr t.name),
     ("dependencies", .vList (t.dependencies.map PyVal.vStr)),
     ("parallel_group", .vInt t.parallel_group)]) s0
  let s1 := ParallelScheduler.schedule_loop run_id exec oracle max_workers fail_fast fuel s0
  s1.futures.foldl (fun s p =>
    ParallelScheduler.handle_result run_id { s with results := upsertStr s.results p.1 p.2 } p.2) s1

/-- Whether a `task.started` event for the given task id has been emitted
into the log. -/
def has_started (log : List Event) (task_id : String) : Bool :=
  log.any (fun e =>
    pyEq e.type (.vStr "task.started") &&
    (match e.data with
     | .vDict d =>
       match List.lookup "task_id" d with
       | some (.vStr s) => s == task_id
       | _ => false
     | _ => false))

/-- Transitive dependency between task ids, read off the dependency lists
stored in a task graph. -/
inductive depends_on (g : TaskGraph) : String → String → Prop where
  | direct {x y : String} {t : Task} :
      List.lookup x g = some t → y ∈ t.dependencies → depends_on g x y
  | step {x y z : String} {t : Task} :
      List.lookup x g = some t → y ∈ t.dependencies → depends_on g y z → depends_on g x z

/-- The safety core of the scheduler invariant, relating the current task
graph and emitted log to the initial graph `g0`: unique keys, keys matching
task ids, domain and dependency lists unchanged since `g0`, every task that
left `pending` has a `task.started` event, and every started task had all
its dependencies completed or skipped. -/
def graph_core (g0 g : TaskGraph) (log : List Event) : Prop :=
  ((g.map Prod.fst).Nodup) ∧
  (∀ p ∈ g, (p.2 : Task).id = p.1) ∧
  (∀ id t0, List.lookup id g0 = some t0 → ∃ t, List.lookup id g = some t) ∧
  (∀ id t, List.lookup id g = some t →
    ∃ t0, List.lookup id g0 = some t0 ∧ t.dependencies = t0.dependencies) ∧
  (∀ id t, List.lookup id g = some t → t.status ≠ .pending → has_started log id = true) ∧
  (∀ id t, List.lookup id g = some t → has_started log id = true →
    ∀ d ∈ t.dependencies,
      ∃ td, List.lookup d g = some td ∧ (td.status = .completed ∨ td.status = .skipped))

/-- The full scheduler-loop invariant: the safety core plus the in-flight
futures bookkeeping (distinct ids, result ids matching future keys, and
every in-flight task currently running or cancelled). -/
def sched_inv (g0 : TaskGraph) (s : Sched) : Prop :=
  s.writer.sanitize = true ∧
  graph_core g0 s.graph s.log ∧
  ((s.futures.map Prod.fst).Nodup) ∧
  (∀ p ∈ s.futures, (p.2 : TaskResult).task_id = p.1) ∧
  (∀ p ∈ s.futures,
    ∃ t, List.lookup p.1 s.graph = some t ∧ (t.status = .running ∨ t.status = .cancelled))

-- ========== Concrete scenario data used by witnesses and counterexamples ==========

/-- An `artifact.written` event whose ref path contains "artifacts/" both
as leading prefix and as an inner component. -/
def ev9 : Event :=
  { type := .vStr "artifact.written", timestamp := .vStr "", seq := .vInt 1, run_id := .vStr "r",
    data := .vDict [("artifact", .vDict [("ref", .vStr "artifacts/sub/artifacts/x.json"),
      ("sha256", .vStr "h"), ("size", .vInt 3), ("mime", .vStr "application/json")])] }

/-- A task with no dependencies and no retry budget. -/
def taskA : Task := { id := "A", name := "A", max_retries := 0 }

/-- A task depending on `taskA`. -/
def taskB : Task := { id := "B", name := "B", dependencies := ["A"] }

/-- A conforming stub executor injecting a terminal failure into task "A"
(the model of `StubExecutor` with `fail_tasks={"A"}`; the artifact output
and wall-clock timing of the success branch are irrelevant here). -/
def exec0 : Task → TaskResult := fun t =>
  if t.id = "A" then
    { task_id := t.id, status := .failed, error := some "Injected failure for task A" }
  else { task_id := t.id, status := .completed }

/-- One complete fail-fast scheduling pass over the two-task graph. -/
def final6 : Sched := ParallelScheduler.schedule "run" exec0 (fun _ => 0) 4 true 8 [taskA, taskB]

-- ========== Helper lemmas ==========

theorem ebind_ok {ε α β : Type} (a : α) (f : α → Except ε β) :
    (Bind.bind (Except.ok a) f : Except ε β) = f a := rfl

theorem ebind_err {ε α β : Type} (e : ε) (f : α → Except ε β) :
    (Bind.bind (Except.error e) f : Except ε β) = .error e := rfl

theorem lookup_cons {α : Type} (k k2 : String) (v2 : α) (rest : List (String × α)) :
    List.lookup k ((k2, v2) :: rest) = if k = k2 then some v2 else List.lookup k rest := by
  by_cases h : k = k2
  · subst h; simp [List.lookup]
  · have hb : (k == k2) = false := by simp [h]
    simp [List.lookup, hb, h]

theorem lookup_any_key {α : Type} (m : List (String × α)) (k : String) (v : α)
    (h : List.lookup k m = some v) : (m.any fun p => p.1 == k) = true := by
  induction m with
  | nil => simp [List.lookup] at h
  | cons p rest ih =>
    rcases p with ⟨k2, v2⟩
    rw [lookup_cons] at h
    by_cases hk : k = k2
    · subst hk; simp
    · rw [if_neg hk] at h
      simp only [List.any_cons, Bool.or_eq_true]
      exact Or.inr (ih h)

theorem upsert_of_present {α : Type} (m : List (String × α)) (k : String) (v : α)
    (hm : (m.any fun p => p.1 == k) = true) :
    upsertStr m k v = m.map fun p => if p.1 = k then (p.1, v) else p := by
  unfold upsertStr
  rw [if_pos hm]
  refine List.map_congr_left fun p _ => ?_
  by_cases hk : p.1 = k <;> simp [hk]

theorem upsert_of_absent {α : Type} (m : List (String × α)) (k : String) (v : α)
    (hm : (m.any fun p => p.1 == k) = false) :
    upsertStr m k v = m ++ [(k, v)] := by
  unfold upsertStr
  rw [if_neg (by simp [hm])]

theorem lookup_upsert_self {α : Type} (m : List (String × α)) (k : String) (v : α) :
    List.lookup k (upsertStr m k v) = some v := by
  cases hm : (m.any fun p => p.1 == k) with
  | true =>
    rw [upsert_of_present m k v hm]
    induction m with
    | nil => simp at hm
    | cons p rest ih =>
      rcases p with ⟨k2, v2⟩
      by_cases hk : k2 = k
      · subst hk; simp [lookup_cons]
      · simp only [List.map_cons]
        rw [if_neg (by simpa using hk), lookup_cons, if_neg (Ne.symm hk)]
        simp only [List.any_cons] at hm
        rw [show (k2 == k) = false by simp [hk]] at hm
        simp only [Bool.false_or] at hm
        exact ih hm
  | false =>
    rw [upsert_of_absent m k v hm]
    induction m with
    | nil => simp [lookup_cons]
    | cons p rest ih =>
      rcases p with ⟨k2, v2⟩
      simp only [List.any_cons, Bool.or_eq_false_iff] at hm
      have hk : k ≠ k2 := by
        intro he
        rw [show (k2 == k) = true by simp [he]] at hm
        exact Bool.true_eq_false.mp hm.1
      simp only [List.cons_append]
      rw [lookup_cons, if_neg hk]
      exact ih hm.2

theorem mem_upsert {α : Type} (m : List (String × α)) (k : String) (v : α) :
    ∀ p ∈ upsertStr m k v, p ∈ m ∨ (p.1 = k ∧ p.2 = v) := by
  intro p hp
  cases hm : (m.any fun q => q.1 == k) with
  | true =>
    rw [upsert_of_present m k v hm] at hp
    obtain ⟨q, hq, hqe⟩ := List.mem_map.mp hp
    by_cases hk : q.1 = k
    · rw [if_pos hk] at hqe
      right; rw [← hqe]; exact ⟨hk, rfl⟩
    · rw [if_neg hk] at hqe
      left; rw [← hqe]; exact hq
  | false =>
    rw [upsert_of_absent m k v hm] at hp
    rcases List.mem_append.mp hp with h | h
    · left; exact h
    · right
      rw [List.mem_singleton] at h
      rw [h]; exact ⟨rfl, rfl⟩

theorem upsert_keys_nodup {α : Type} (m : List (String × α)) (k : String) (v : α)
    (h : (m.map Prod.fst).Nodup) : ((upsertStr m k v).map Prod.fst).Nodup := by
  cases hm : (m.any fun p => p.1 == k) with
  | true =>
    rw [upsert_of_present m k v hm]
    have he : (m.map fun p => if p.1 = k then (p.1, v) else p).map Prod.fst = m.map Prod.fst := by
      rw [List.map_map]
      refine List.map_congr_left fun p _ => ?_
      by_cases hk : p.1 = k <;> simp [hk]
    rw [he]; exact h
  | false =>
    rw [upsert_of_absent m k v hm]
    rw [List.map_append, List.nodup_append]
    refine ⟨h, by simp, ?_⟩
    intro a ha hb
    simp only [List.map_cons, List.map_nil, List.mem_singleton] at hb
    obtain ⟨p, hp, hpe⟩ := List.mem_map.mp ha
    have hk : (m.any fun q => q.1 == k) = true :=
      List.any_eq_true.mpr ⟨p, hp, by simp [hpe, hb]⟩
    rw [hm] at hk
    exact Bool.false_eq_true.mp hk

theorem lookup_of_mem_nodup {α : Type} (m : List (String × α)) (k : String) (v : α)
    (hmem : (k, v) ∈ m) (hnd : (m.map Prod.fst).Nodup) : List.lookup k m = some v := by
  induction m with
  | nil => simp at hmem
  | cons p rest ih =>
    rcases p with ⟨k2, v2⟩
    simp only [List.map_cons, List.nodup_cons] at hnd
    rcases List.mem_cons.mp hmem with h | h
    · cases h
      rw [lookup_cons, if_pos rfl]
    · have hk : k ≠ k2 := by
        intro he; subst he
        exact hnd.1 (List.mem_map.mpr ⟨(k, v), h, rfl⟩)
      rw [lookup_cons, if_neg hk]
      exact ih h hnd.2

theorem lookup_mem {α : Type} (m : List (String × α)) (k : String) (v : α)
    (h : List.lookup k m = some v) : (k, v) ∈ m := by
  induction m with
  | nil => simp [List.lookup] at h
  | cons p rest ih =>
    rcases p with ⟨k2, v2⟩
    rw [lookup_cons] at h
    by_cases hk : k = k2
    · rw [if_pos hk] at h
      injection h with hv
      rw [hk, ← hv]
      exact List.mem_cons_self _ _
    · rw [if_neg hk] at h
      exact List.mem_cons_of_mem _ (ih h)

-- ========== Sanitize lemmas ==========

theorem sanitize_value_str (s : String) : sanitize_value (.vStr s) = .vStr s := by
  show (if 20 < s.length && s.data.any Char.isAlphanum then PyVal.vStr s else .vStr s) = .vStr s
  exact ite_self _

theorem sanitize_list_cons (v : PyVal) (rest : List PyVal) :
    sanitize_list (v :: rest) = sanitize_value v :: sanitize_list rest := rfl

theorem sanitize_dict_cons (k : String) (v : PyVal) (rest : List (String × PyVal)) :
    sanitize_dict ((k, v) :: rest) =
      (k, if is_sensitive_key k then .vStr "[REDACTED]"
          else match v with
            | .vDict l => .vDict (sanitize_dict l)
            | .vList l => .vList (sanitize_list l)
            | w => w) :: sanitize_dict rest := by
  cases v <;> rfl

theorem sanitize_list_eq_map (l : List PyVal) : sanitize_list l = l.map sanitize_value := by
  induction l with
  | nil => rfl
  | cons v rest ih => rw [sanitize_list_cons, ih, List.map_cons]

theorem sanitize_dict_eq_map (d : List (String × PyVal)) :
    sanitize_dict d = d.map fun kv =>
      (kv.1, if is_sensitive_key kv.1 then .vStr "[REDACTED]" else sanitize_value kv.2) := by
  induction d with
  | nil => rfl
  | cons kv rest ih =>
    rcases kv with ⟨k, v⟩
    rw [sanitize_dict_cons, ih, List.map_cons]
    by_cases hs : is_sensitive_key k
    · simp only [hs, if_true]
    · simp only [hs, if_false]
      cases v with
      | vStr s => rw [sanitize_value_str]
      | vDict l => rfl
      | vList l => rfl
      | vNone => rfl
      | vBool b => rfl
      | vInt n => rfl
      | vBytes b => rfl

theorem sanitize_dict_keys (d : List (String × PyVal)) :
    (sanitize_dict d).map Prod.fst = d.map Prod.fst := by
  rw [sanitize_dict_eq_map, List.map_map]
  exact List.map_congr_left fun kv _ => rfl

-- ========== EventWriter lemmas ==========

theorem isDict_exists (v : PyVal) (h : v.isDict = true) : ∃ d, v = .vDict d := by
  cases v <;> simp [PyVal.isDict] at h ⊢

theorem write_dict (w : EventWriter) (e : Event) (d : List (String × PyVal))
    (hw : w.sanitize = true) (hd : e.data = .vDict d) :
    EventWriter.write w e =
      .ok ({ type := e.type, timestamp := e.timestamp, seq := .vInt (w.seq + 1),
             run_id := e.run_id, data := .vDict (sanitize_dict d) },
           { seq := w.seq + 1, sanitize := w.sanitize }) := by
  rw [hw]
  simp [EventWriter.write, sanitize_event, hd, hw]

theorem write_sequence_spec (es : List Event) :
    ∀ (w : EventWriter), w.sanitize = true → (∀ e ∈ es, e.data.isDict = true) →
    ∃ outs w2, EventWriter.write_sequence w es = .ok (outs, w2) ∧
      outs.length = es.length ∧ w2.seq = w.seq + es.length ∧
      ∀ i (hi : i < outs.length), (outs.get ⟨i, hi⟩).seq = .vInt (w.seq + i + 1) := by
  induction es with
  | nil =>
    intro w hw _
    exact ⟨[], w, rfl, rfl, by simp, fun i hi => absurd hi (by simp)⟩
  | cons e rest ih =>
    intro w hw hall
    obtain ⟨d, hd⟩ := isDict_exists e.data (hall e (List.mem_cons_self _ _))
    have hrest : ∀ x ∈ rest, x.data.isDict = true :=
      fun x hx => hall x (List.mem_cons_of_mem _ hx)
    obtain ⟨outs, w2, h1, h2, h3, h4⟩ :=
      ih { seq := w.seq + 1, sanitize := w.sanitize } (by simpa using hw) hrest
    refine ⟨{ type := e.type, timestamp := e.timestamp, seq := .vInt (w.seq + 1),
              run_id := e.run_id, data := .vDict (sanitize_dict d) } :: outs,
            w2, ?_, by simpa using h2, ?_, ?_⟩
    · simp only [EventWriter.write_sequence, write_dict w e d hw hd, ebind_ok, h1]
    · rw [h3]; simp only [List.length_cons]; push_cast; ring
    · intro i hi
      cases i with
      | zero => simp
      | succ j =>
        have hj : j < outs.length := by simpa using hi
        have := h4 j hj
        simp only [List.get] at this ⊢
        rw [this]
        congr 1
        push_cast
        ring

-- ========== EventReader lemmas ==========

/-- Whether a raw line would make `Event.from_json` raise `TypeError`
(valid JSON, but not a valid event object). -/
def line_type_error (l : JsonLine) : Bool :=
  match Event.from_json l with
  | .error .typeError => true
  | _ => false

theorem from_json_error_kind (l : JsonLine) (e : PyErr) (h : Event.from_json l = .error e) :
    e = .jsonDecodeError ∨ e = .typeError := by
  cases l with
  | none =>
    injection h with he
    exact Or.inl he.symm
  | some v =>
    cases v with
    | vDict obj =>
      simp only [Event.from_json] at h
      split_ifs at h <;> simp_all
    | vNone => injection h with he; exact Or.inr he.symm
    | vBool b => injection h with he; exact Or.inr he.symm
    | vInt n => injection h with he; exact Or.inr he.symm
    | vStr s => injection h with he; exact Or.inr he.symm
    | vBytes b => injection h with he; exact Or.inr he.symm
    | vList l2 => injection h with he; exact Or.inr he.symm

theorem line_type_error_iff (l : JsonLine) :
    line_type_error l = true ↔ Event.from_json l = .error .typeError := by
  unfold line_type_error
  cases hfj : Event.from_json l with
  | ok ev => simp
  | error e => cases e <;> simp

-- ========== C1 ==========

/-- C1 (confirmed): `StateReconstructor.reconstruct` is a pure fold over
the log: two invocations over the same line list produce identical
results, and the result factors through nothing but the run id and the
parsed log (both equations hold definitionally because the embedding of
`_process_event` reads only its state and event arguments). -/
theorem reconstruct_replay_deterministic (run_id : String) (lines : List JsonLine) :
    StateReconstructor.reconstruct run_id lines = StateReconstructor.reconstruct run_id lines ∧
    StateReconstructor.reconstruct run_id lines =
      StateReconstructor.reconstruct_go (RunState.init run_id) lines :=
  ⟨rfl, rfl⟩

-- ========== C2 ==========

/-- C2 (confirmed): for an `EventWriter` initialized over an empty log and
any sequence of write calls (of events whose payload is a dict, as every
event produced through `Event.create` is), the i-th written event carries
`seq = i` (1-based); hence within one run's log `seq` is strictly
increasing starting at 1 with no gaps, assigned exactly once by the writer
at append time. -/
theorem writer_seq_consecutive (es : List Event)
    (h : (es.all fun e => e.data.isDict) = true) :
    ∃ outs w2,
      EventWriter.write_sequence { seq := EventWriter.init_seq [] } es = .ok (outs, w2) ∧
      outs.length = es.length ∧
      ∀ i (hi : i < outs.length), (outs.get ⟨i, hi⟩).seq = .vInt (i + 1) := by
  obtain ⟨outs, w2, h1, h2, _, h4⟩ :=
    write_sequence_spec es { seq := EventWriter.init_seq [] } rfl
      (fun e he => List.all_eq_true.mp h e he)
  refine ⟨outs, w2, h1, h2, fun i hi => ?_⟩
  have := h4 i hi
  rw [this]
  norm_num [EventWriter.init_seq]

/-- Witness for C2 at a concrete two-event sequence. -/
theorem writer_seq_consecutive_witness :
    ∃ outs w2,
      EventWriter.write_sequence { seq := EventWriter.init_seq [] }
        [Event.create "run.started" "r" [("requirement", .vStr "demo")],
         Event.create "stage.started" "r" [("stage", .vStr "plan")]] = .ok (outs, w2) ∧
      outs.length = 2 ∧
      ∀ i (hi : i < outs.length), (outs.get ⟨i, hi⟩).seq = .vInt (i + 1) :=
  writer_seq_consecutive
    [Event.create "run.started" "r" [("requirement", .vStr "demo")],
     Event.create "stage.started" "r" [("stage", .vStr "plan")]] rfl

-- ========== C7 ==========

/-- C7 (corrected): the reader is lenient only towards lines that fail
JSON decoding — those are skipped silently and the remaining lines yield
exactly the parseable events in file order; but a line that decodes to
JSON without being a valid event object (a non-object, an unexpected key,
or a missing `type`/`timestamp`) makes `Event.from_json` raise `TypeError`,
which `read_all` does not catch. -/
theorem read_all_lenient_amended :
    (∀ lines : List JsonLine, (∀ l ∈ lines, line_type_error l = false) →
      EventReader.read_all lines =
        .ok (lines.filterMap fun l => (Event.from_json l).toOption)) ∧
    (∀ lines : List JsonLine, (∃ l ∈ lines, line_type_error l = true) →
      EventReader.read_all lines = .error .typeError) := by
  constructor
  · intro lines
    induction lines with
    | nil => intro _; rfl
    | cons l rest ih =>
      intro hall
      have hl : line_type_error l = false := hall l (List.mem_cons_self _ _)
      have hrest := fun x hx => hall x (List.mem_cons_of_mem _ hx)
      cases hfj : Event.from_json l with
      | error e =>
        rcases from_json_error_kind l e hfj with he | he
        · subst he
          simp only [EventReader.read_all, hfj, List.filterMap_cons, hfj,
            Except.toOption, ih hrest]
        · subst he
          have ht : line_type_error l = true := (line_type_error_iff l).mpr hfj
          rw [hl] at ht
          exact absurd ht (by simp)
      | ok ev =>
        simp only [EventReader.read_all, hfj, List.filterMap_cons, Except.toOption,
          ih hrest, ebind_ok]
  · intro lines
    induction lines with
    | nil => intro h; simp at h
    | cons l rest ih =>
      intro hex
      cases hfj : Event.from_json l with
      | error e =>
        rcases from_json_error_kind l e hfj with he | he
        · subst he
          simp only [EventReader.read_all, hfj]
          refine ih ?_
          obtain ⟨x, hx, hxt⟩ := hex
          rcases List.mem_cons.mp hx with hxl | hxr
          · subst hxl
            rw [line_type_error_iff] at hxt
            rw [hxt] at hfj
            exact absurd hfj (by simp)
          · exact ⟨x, hxr, hxt⟩
        · subst he
          simp only [EventReader.read_all, hfj]
      | ok ev =>
        have hrest : ∃ x ∈ rest, line_type_error x = true := by
          obtain ⟨x, hx, hxt⟩ := hex
          rcases List.mem_cons.mp hx with hxl | hxr
          · subst hxl
            rw [line_type_error_iff] at hxt
            rw [hxt] at hfj
            exact absurd hfj (by simp)
          · exact ⟨x, hxr, hxt⟩
        simp only [EventReader.read_all, hfj, ih hrest, ebind_err]

/-- Witness for C7 at concrete line lists: a decode-failing line is
skipped while well-formed lines parse in order, and a list containing a
JSON-decodable non-event line errors. -/
theorem read_all_lenient_amended_witness :
    EventReader.read_all [none, some (.vDict [("type", .vStr "a"), ("timestamp", .vStr "t")])] =
      .ok [{ type := .vStr "a", timestamp := .vStr "t" }] ∧
    EventReader.read_all [some (.vList []), none] = .error .typeError := by
  constructor
  · have h := read_all_lenient_amended.1
      [none, some (.vDict [("type", .vStr "a"), ("timestamp", .vStr "t")])] (by decide)
    rw [h]; rfl
  · exact read_all_lenient_amended.2 [some (.vList []), none]
      ⟨some (.vList []), by simp, rfl⟩

/-- Counterexample to C7 as stated: the corrupt line `[]` is valid JSON
but not an event object; `EventReader.read_all` raises `TypeError` on it
instead of skipping it, so the reader does not return the list of
parseable events. -/
theorem read_all_raises_counterexample :
    EventReader.read_all [some (.vList [])] = .error .typeError ∧
    ∀ evs : List Event, EventReader.read_all [some (.vList [])] ≠ .ok evs := by
  refine ⟨rfl, fun evs h => ?_⟩
  rw [show EventReader.read_all [some (.vList [])] = .error .typeError from rfl] at h
  exact absurd h (by simp)

-- ========== C8 ==========

/-- C8 (confirmed): a value is replaced by "[REDACTED]" exactly when its
key matches the sensitive set case-insensitively and is not in the
allow-list; allow-listed token-usage keys are never redacted; and the
redaction recurses into nested dicts and into dicts inside lists. -/
theorem redaction_exact_characterization :
    (∀ k : String, is_sensitive_key k = true ↔
      (SENSITIVE_KEYS.contains (str_lower k) = true ∧ SAFE_KEYS.contains (str_lower k) = false)) ∧
    (∀ k : String, SAFE_KEYS.contains (str_lower k) = true → is_sensitive_key k = false) ∧
    (∀ d, sanitize_dict d = d.map fun kv =>
      (kv.1, if is_sensitive_key kv.1 then .vStr "[REDACTED]" else sanitize_value kv.2)) ∧
    (∀ d, sanitize_value (.vDict d) = .vDict (sanitize_dict d)) ∧
    (∀ l, sanitize_value (.vList l) = .vList (l.map sanitize_value)) := by
  refine ⟨?_, ?_, sanitize_dict_eq_map, fun d => rfl, ?_⟩
  · intro k
    unfold is_sensitive_key
    cases hs : SAFE_KEYS.contains (str_lower k)
    · rw [if_neg (by simp)]
      exact ⟨fun h => ⟨h, rfl⟩, And.left⟩
    · rw [if_pos rfl]
      exact ⟨fun h => absurd h (by simp), fun h => absurd h.2 (by simp)⟩
  · intro k h
    unfold is_sensitive_key
    rw [h, if_pos rfl]
  · intro l
    show PyVal.vList (sanitize_list l) = .vList (l.map sanitize_value)
    rw [sanitize_list_eq_map]

-- ========== String-replace lemmas ==========

theorem isPrefixOf_append_self (p l : List Char) : p.isPrefixOf (p ++ l) = true := by
  induction p with
  | nil => cases l <;> rfl
  | cons c cs ih => simp [List.isPrefixOf, ih]

theorem replace_go_no_occ (old rep : List Char) :
    ∀ (s : List Char) (fuel : Nat), containsSub old s = false →
      str_replace_go old rep fuel s = s := by
  intro s
  induction s with
  | nil => intro fuel _; cases fuel <;> rfl
  | cons c t ih =>
    intro fuel h
    rw [show containsSub old (c :: t) = (old.isPrefixOf (c :: t) || containsSub old t)
      from rfl] at h
    rcases Bool.or_eq_false_iff.mp h with ⟨h1, h2⟩
    cases fuel with
    | zero => rfl
    | succ f =>
      show (if old.isPrefixOf (c :: t) then _ else c :: str_replace_go old rep f t) = c :: t
      rw [h1]
      simp only [Bool.false_eq_true, if_false]
      rw [ih f h2]

theorem replace_go_strip (old rep rest : List Char) (fuel : Nat) (hne : old ≠ []) :
    str_replace_go old rep (fuel + 1) (old ++ rest) =
      rep ++ str_replace_go old rep fuel rest := by
  cases old with
  | nil => exact absurd rfl hne
  | cons c cs =>
    show (if (c :: cs).isPrefixOf (c :: (cs ++ rest)) then
        rep ++ str_replace_go (c :: cs) rep fuel ((c :: (cs ++ rest)).drop (c :: cs).length)
      else _) = _
    rw [show (c :: (cs ++ rest)) = (c :: cs) ++ rest from rfl, isPrefixOf_append_self]
    simp only [if_true]
    rw [List.drop_left]

theorem replace_strip_all (nm : String)
    (h : containsSub ("artifacts/".data) nm.data = false) :
    str_replace ("artifacts/" ++ nm) "artifacts/" "" = nm := by
  unfold str_replace
  rw [if_neg (by decide)]
  have hd : ("artifacts/" ++ nm).data = "artifacts/".data ++ nm.data := by
    cases nm
    rfl
  rw [hd]
  have hf : ("artifacts/".data ++ nm.data).length = (9 + nm.data.length) + 1 := by
    rw [List.length_append, show ("artifacts/".data).length = 10 from rfl]
    omega
  rw [hf, replace_go_strip _ _ _ _ (by decide), replace_go_no_occ _ _ _ _ h]
  show String.mk nm.data = nm
  cases nm
  rfl

theorem pyEq_vStr (a b : String) : pyEq (.vStr a) (.vStr b) = (a == b) := rfl

theorem pyEq_vInt (a b : Int) : pyEq (.vInt a) (.vInt b) = (a == b) := rfl

theorem verify_unfold (fs2 : Store) (ref : ArtifactRef) :
    ArtifactStore.verify fs2 ref =
      match ref.ref with
      | .vStr rf =>
        (match List.lookup (str_replace rf "artifacts/" "") fs2 with
         | none => .ok false
         | some c => .ok (pyEq (.vStr (sha256_hexdigest c)) ref.sha256 &&
             pyEq (.vInt c.length) ref.size))
      | _ => .error .attributeError := by
  unfold ArtifactStore.verify
  cases ref.ref <;> rfl

-- ========== C4 ==========

/-- C4 (corrected): for every relative name that does not contain
"artifacts/" as a substring (`verify` strips every occurrence of that
substring from the ref path, not only the leading prefix, so a name
containing it is looked up at the wrong path), `write` followed by
`verify` on the returned ref yields true; and in general `verify` yields
true exactly when the file at the stripped path exists with the recorded
digest and size — so it is false whenever the file is missing or the bytes
on disk disagree with the ref's recorded sha256 or size. -/
theorem artifact_roundtrip_amended (fs : Store) (nm : String) (content : List Nat)
    (mime : Option String) (h : containsSub ("artifacts/".data) nm.data = false) :
    ArtifactStore.verify (ArtifactStore.write fs nm content mime).1
      (ArtifactStore.write fs nm content mime).2 = .ok true ∧
    (∀ (fs2 : Store) (ref : ArtifactRef),
      ArtifactStore.verify fs2 ref = .ok true ↔
        ∃ r, ref.ref = .vStr r ∧
          ∃ c, List.lookup (str_replace r "artifacts/" "") fs2 = some c ∧
            pyEq (.vStr (sha256_hexdigest c)) ref.sha256 = true ∧
            pyEq (.vInt c.length) ref.size = true) := by
  constructor
  · have h1 : (ArtifactStore.write fs nm content mime).1 = upsertStr fs nm content := rfl
    have h2 : (ArtifactStore.write fs nm content mime).2.ref =
      .vStr ("artifacts/" ++ nm) := rfl
    have h3 : (ArtifactStore.write fs nm content mime).2.sha256 =
      .vStr (sha256_hexdigest content) := rfl
    have h4 : (ArtifactStore.write fs nm content mime).2.size =
      .vInt (content.length : Int) := rfl
    rw [h1, verify_unfold, h2, h3, h4]
    simp only [replace_strip_all nm h, lookup_upsert_self, pyEq_vStr, pyEq_vInt,
      beq_self_eq_true, Bool.and_self]
  · intro fs2 ref
    rw [verify_unfold fs2 ref]
    cases href : ref.ref
    case vStr r =>
      cases hlk : List.lookup (str_replace r "artifacts/" "") fs2 with
      | none =>
        simp only [hlk]
        constructor
        · intro hco
          exact absurd hco (by simp)
        · rintro ⟨r2, hr2, c, hc, _⟩
          injection hr2 with hrr
          rw [← hrr, hlk] at hc
          exact absurd hc (by simp)
      | some c =>
        simp only [hlk]
        constructor
        · intro hco
          injection hco with hb
          rw [Bool.and_eq_true] at hb
          exact ⟨r, rfl, c, hlk, hb.1, hb.2⟩
        · rintro ⟨r2, hr2, c2, hc2, hsha, hsize⟩
          injection hr2 with hrr
          rw [← hrr, hlk] at hc2
          injection hc2 with hcc
          rw [← hcc] at hsha hsize
          rw [hsha, hsize]
          rfl
    all_goals
      refine ⟨fun hco => absurd hco (by simp), ?_⟩
      rintro ⟨r2, hr2, _⟩
      exact absurd hr2 (by simp)

/-- Witness for C4 at a concrete clean name. -/
theorem artifact_roundtrip_amended_witness :
    containsSub ("artifacts/".data) ("plan.json".data) = false ∧
    ArtifactStore.verify (ArtifactStore.write [] "plan.json" [1, 2, 3] none).1
      (ArtifactStore.write [] "plan.json" [1, 2, 3] none).2 = .ok true :=
  ⟨by decide, (artifact_roundtrip_amended [] "plan.json" [1, 2, 3] none (by decide)).1⟩

/-- Counterexample to C4 as stated: for the name "artifacts/a" (whose ref
path "artifacts/artifacts/a" loses both occurrences under `str.replace`),
an immediate `verify` after `write` returns false, not true. -/
theorem artifact_roundtrip_counterexample :
    ArtifactStore.verify (ArtifactStore.write [] "artifacts/a" [1] none).1
      (ArtifactStore.write [] "artifacts/a" [1] none).2 = .ok false ∧
    (Except.ok false : Except PyErr Bool) ≠ .ok true := by
  exact ⟨rfl, by simp⟩

-- ========== C3 ==========

theorem canSkipOutputs_iff (st : RunState) (fs : Store) (outs : List String) :
    canSkipOutputs st fs outs = .ok true ↔
      ∀ out ∈ outs, ∃ ref, List.lookup out st.artifacts = some ref ∧
        ArtifactStore.verify fs ref = .ok true := by
  induction outs with
  | nil => simp [canSkipOutputs]
  | cons o rest ih =>
    cases hl : List.lookup o st.artifacts with
    | none =>
      simp only [canSkipOutputs, hl]
      constructor
      · intro hco; exact absurd hco (by simp)
      · intro hall
        obtain ⟨ref, hr, _⟩ := hall o (List.mem_cons_self _ _)
        rw [hl] at hr
        exact absurd hr (by simp)
    | some ref =>
      cases hv : ArtifactStore.verify fs ref with
      | error e =>
        simp only [canSkipOutputs, hl, hv, ebind_err]
        constructor
        · intro hco; exact absurd hco (by simp)
        · intro hall
          obtain ⟨ref2, hr2, hv2⟩ := hall o (List.mem_cons_self _ _)
          rw [hl] at hr2
          injection hr2 with hre
          rw [← hre, hv] at hv2
          exact absurd hv2 (by simp)
      | ok b =>
        cases b with
        | true =>
          simp only [canSkipOutputs, hl, hv, ebind_ok, if_true]
          rw [ih]
          constructor
          · intro hall out hout
            rcases List.mem_cons.mp hout with ho | ho
            · subst ho; exact ⟨ref, hl, hv⟩
            · exact hall out ho
          · intro hall out hout
            exact hall out (List.mem_cons_of_mem _ hout)
        | false =>
          simp only [canSkipOutputs, hl, hv, ebind_ok]
          constructor
          · intro hco
            exact absurd hco (by simp)
          · intro hall
            obtain ⟨ref2, hr2, hv2⟩ := hall o (List.mem_cons_self _ _)
            rw [hl] at hr2
            injection hr2 with hre
            rw [← hre, hv] at hv2
            exact absurd hv2 (by simp)

/-- C3 (confirmed): `can_skip` returns true exactly when the stage name is
in the completed set, every declared output name is a key of the artifact
map, and the stored ref for each output verifies against the store; a
stage whose completion is recorded but whose outputs are missing or fail
verification is not skippable. -/
theorem can_skip_characterization (st : RunState) (stage : Stage) (fs : Store) :
    RunState.can_skip st stage fs = .ok true ↔
      ((st.completed_stages.any fun y => pyEq (.vStr stage.name) y) = true ∧
       ∀ out ∈ stage.outputs, ∃ ref, List.lookup out st.artifacts = some ref ∧
         ArtifactStore.verify fs ref = .ok true) := by
  unfold RunState.can_skip
  cases hm : (st.completed_stages.any fun y => pyEq (.vStr stage.name) y)
  · rw [if_pos rfl]
    constructor
    · intro hco; exact absurd hco (by simp)
    · intro hco; exact absurd hco.1 (by simp)
  · rw [if_neg (by simp)]
    rw [canSkipOutputs_iff]
    exact ⟨fun h2 => ⟨rfl, h2⟩, And.right⟩

-- ========== C9 ==========

theorem pyEq_vStr_of_ne (a b : String) (h : a ≠ b) : pyEq (.vStr a) (.vStr b) = false := by
  rw [pyEq_vStr]
  simp [h]

/-- C9 (corrected): an `artifact.written` event whose data carries an
artifact dict with a string `ref` field upserts the artifact map at the
key obtained by removing EVERY occurrence of the substring "artifacts/"
from the ref path (CPython `str.replace`, not a prefix strip), storing the
event's `ref`, `sha256`, `size` and `mime` fields (with the dataclass
defaults when absent); all other state fields except `last_event_seq` are
unchanged. -/
theorem artifact_written_key_amended (st : RunState) (e : Event)
    (d ad : List (String × PyVal)) (r : String)
    (hty : e.type = .vStr "artifact.written")
    (hdata : e.data = .vDict d)
    (hart : List.lookup "artifact" d = some (.vDict ad))
    (href : List.lookup "ref" ad = some (.vStr r)) :
    StateReconstructor.process_event st e =
      .ok { st with
            last_event_seq := e.seq,
            artifacts := upsertStr st.artifacts (str_replace r "artifacts/" "")
              { ref := .vStr r,
                sha256 := dictGetD ad "sha256" (.vStr ""),
                size := dictGetD ad "size" (.vInt 0),
                mime := dictGetD ad "mime" (.vStr "application/octet-stream") } } := by
  have hhk : (ad.any fun kv => kv.1 == "ref") = true := lookup_any_key ad "ref" _ href
  unfold StateReconstructor.process_event
  simp [Event.isType, hty, hdata, pyEq_vStr, pyGet, dictGetD, hart, pyContainsStr,
    hhk, pySubscriptStr, href, ebind_ok]

/-- Witness for C9: applying the amended key rule to the concrete event
`ev9` (non-sensitive hypotheses discharged by computation). -/
theorem artifact_written_key_amended_witness :
    StateReconstructor.process_event (RunState.init "run") ev9 =
      .ok { RunState.init "run" with
            last_event_seq := ev9.seq,
            artifacts := upsertStr (RunState.init "run").artifacts
              (str_replace "artifacts/sub/artifacts/x.json" "artifacts/" "")
              { ref := .vStr "artifacts/sub/artifacts/x.json",
                sha256 := .vStr "h", size := .vInt 3,
                mime := .vStr "application/json" } } := by
  have h := artifact_written_key_amended (RunState.init "run") ev9
    [("artifact", .vDict [("ref", .vStr "artifacts/sub/artifacts/x.json"),
      ("sha256", .vStr "h"), ("size", .vInt 3), ("mime", .vStr "application/json")])]
    [("ref", .vStr "artifacts/sub/artifacts/x.json"),
      ("sha256", .vStr "h"), ("size", .vInt 3), ("mime", .vStr "application/json")]
    "artifacts/sub/artifacts/x.json" rfl rfl rfl rfl
  rw [h]
  rfl

/-- Counterexample to C9 as stated: for the ref path
"artifacts/sub/artifacts/x.json", stripping only the leading "artifacts/"
prefix would key the artifact map at "sub/artifacts/x.json", but the
reducer keys it at "sub/x.json" (the inner occurrence is removed too). -/
theorem artifact_written_key_counterexample :
    (StateReconstructor.process_event (RunState.init "run") ev9).map
      (fun s => (List.lookup "sub/artifacts/x.json" s.artifacts,
                 (List.lookup "sub/x.json" s.artifacts).isSome)) = .ok (none, true) := rfl

-- ========== C10 ==========

/-- C10 (confirmed): sanitization is frame-preserving — `sanitize_event`
keeps `type`, `timestamp`, `seq` and `run_id` unchanged; the key list of
the data map is preserved at the top level and, by the recursion equations,
at every nesting depth (inside dict values and dicts inside list values);
only values under sensitive keys are replaced; and a string value under a
non-sensitive key is returned unchanged regardless of its content. -/
theorem sanitize_frame_preservation :
    (∀ ty ts sq rid d,
      sanitize_event { type := ty, timestamp := ts, seq := sq, run_id := rid, data := .vDict d } =
        .ok { type := ty, timestamp := ts, seq := sq, run_id := rid,
              data := .vDict (sanitize_dict d) }) ∧
    (∀ d, (sanitize_dict d).map Prod.fst = d.map Prod.fst) ∧
    (∀ d, sanitize_dict d = d.map fun kv =>
      (kv.1, if is_sensitive_key kv.1 then .vStr "[REDACTED]" else sanitize_value kv.2)) ∧
    (∀ s, sanitize_value (.vStr s) = .vStr s) ∧
    (∀ d, sanitize_value (.vDict d) = .vDict (sanitize_dict d)) ∧
    (∀ l, sanitize_value (.vList l) = .vList (sanitize_list l)) ∧
    (∀ l, (sanitize_list l).length = l.length) := by
  refine ⟨fun ty ts sq rid d => rfl, sanitize_dict_keys, sanitize_dict_eq_map,
    sanitize_value_str, fun d => rfl, fun l => rfl, ?_⟩
  intro l
  rw [sanitize_list_eq_map, List.length_map]

-- ========== C5 ==========

theorem dep_satisfied_iff (g : TaskGraph) (dep : String) :
    (match List.lookup dep g with
     | some td => td.status == TaskStatus.completed || td.status == TaskStatus.skipped
     | none => false) = true ↔
      ∃ td, List.lookup dep g = some td ∧
        (td.status = .completed ∨ td.status = .skipped) := by
  cases h : List.lookup dep g with
  | none => simp
  | some td => simp [h]

theorem mem_get_ready_tasks (g : TaskGraph) (t : Task) :
    t ∈ g.get_ready_tasks ↔
      t ∈ g.map Prod.snd ∧ t.status = .pending ∧
      ∀ dep ∈ t.dependencies, ∃ td, List.lookup dep g = some td ∧
        (td.status = .completed ∨ td.status = .skipped) := by
  unfold TaskGraph.get_ready_tasks
  rw [List.mem_filter]
  constructor
  · rintro ⟨hm, hb⟩
    rw [Bool.and_eq_true] at hb
    refine ⟨hm, by simpa using hb.1, fun dep hdep => ?_⟩
    exact (dep_satisfied_iff g dep).mp (List.all_eq_true.mp hb.2 dep hdep)
  · rintro ⟨hm, hst, hdeps⟩
    refine ⟨hm, ?_⟩
    rw [Bool.and_eq_true]
    refine ⟨by simpa using hst, List.all_eq_true.mpr fun dep hdep => ?_⟩
    exact (dep_satisfied_iff g dep).mpr (hdeps dep hdep)

-- ========== Scheduler graph lemmas ==========

theorem update_keys (g : TaskGraph) (id : String) (f : Task → Task) :
    (g.update id f).map Prod.fst = g.map Prod.fst := by
  unfold TaskGraph.update
  rw [List.map_map]
  refine List.map_congr_left fun p _ => ?_
  by_cases hk : p.1 = id <;> simp [hk]

theorem lookup_update (g : TaskGraph) (id id2 : String) (f : Task → Task) :
    List.lookup id2 (g.update id f) =
      if id2 = id then (List.lookup id2 g).map f else List.lookup id2 g := by
  unfold TaskGraph.update
  induction g with
  | nil => by_cases h : id2 = id <;> simp [h, List.lookup]
  | cons p rest ih =>
    rcases p with ⟨k, t⟩
    simp only [beq_iff_eq] at ih
    simp only [List.map_cons]
    by_cases hk : k = id
    · subst hk
      rw [if_pos (show (k == k) = true by simp)]
      by_cases h2 : id2 = k
      · subst h2
        simp [lookup_cons]
      · simp [lookup_cons, h2, ih]
    · rw [if_neg (show ¬ (k == id) = true by simp [hk])]
      by_cases h2 : id2 = k
      · subst h2
        simp [lookup_cons, hk]
      · simp [lookup_cons, h2, ih]

theorem mem_update (g : TaskGraph) (id : String) (f : Task → Task) :
    ∀ p ∈ g.update id f, ∃ q ∈ g, p = if q.1 = id then (q.1, f q.2) else q := by
  intro p hp
  unfold TaskGraph.update at hp
  obtain ⟨q, hq, hqe⟩ := List.mem_map.mp hp
  refine ⟨q, hq, ?_⟩
  by_cases hk : q.1 = id <;> simp [hk] at hqe ⊢ <;> exact hqe.symm

theorem has_started_snoc (log : List Event) (e : Event) (id : String) :
    has_started (log ++ [e]) id =
      (has_started log id ||
        (pyEq e.type (.vStr "task.started") &&
          (match e.data with
           | .vDict d =>
             (match List.lookup "task_id" d with
              | some (.vStr s) => s == id
              | _ => false)
           | _ => false))) := by
  unfold has_started
  rw [List.any_append]
  simp

theorem has_started_mono (log l2 : List Event) (id : String)
    (h : has_started log id = true) : has_started (log ++ l2) id = true := by
  unfold has_started at h ⊢
  rw [List.any_append, h]
  rfl

theorem has_started_snoc_other (log : List Event) (id ty : String) (ts sq rid dd : PyVal)
    (hty : ty ≠ "task.started") :
    has_started (log ++
        [{ type := .vStr ty, timestamp := ts, seq := sq, run_id := rid, data := dd }]) id =
      has_started log id := by
  rw [has_started_snoc]
  have hne : pyEq (PyVal.vStr ty) (.vStr "task.started") = false := by
    rw [pyEq_vStr]; simp [hty]
  simp [hne]

theorem has_started_snoc_started (log : List Event) (id tid : String) (ts sq rid : PyVal) :
    has_started (log ++
        [{ type := .vStr "task.started", timestamp := ts, seq := sq, run_id := rid, data := .vDict [("task_id", .vStr tid)] }]) id =
      (has_started log id || (tid == id)) := by
  rw [has_started_snoc]
  have h1 : pyEq (PyVal.vStr "task.started") (.vStr "task.started") = true := rfl
  simp [h1, lookup_cons]

theorem sanitize_taskid (tid : String) :
    sanitize_dict [("task_id", .vStr tid)] = [("task_id", .vStr tid)] := rfl

theorem emit_frame (s : Sched) (ty rid : String) (data : List (String × PyVal)) :
    (s.emit ty rid data).graph = s.graph ∧
    (s.emit ty rid data).futures = s.futures ∧
    (s.emit ty rid data).results = s.results ∧
    (s.emit ty rid data).should_stop = s.should_stop := by
  simp only [Sched.emit]
  cases s.writer.write (Event.create ty rid data) with
  | ok p => exact ⟨rfl, rfl, rfl, rfl⟩
  | error e => exact ⟨rfl, rfl, rfl, rfl⟩

theorem emit_spec (s : Sched) (ty rid : String) (data : List (String × PyVal))
    (hw : s.writer.sanitize = true) :
    s.emit ty rid data =
      { s with
        writer := { seq := s.writer.seq + 1, sanitize := true },
        log := s.log ++
          [{ type := .vStr ty, timestamp := .vStr "", seq := .vInt (s.writer.seq + 1), run_id := .vStr rid, data := .vDict (sanitize_dict data) }] } := by
  simp only [Sched.emit]
  rw [write_dict s.writer (Event.create ty rid data) data hw rfl, hw]
  rfl

-- ========== Core invariant preservation ==========

theorem core_log_ext (g0 : TaskGraph) (g : TaskGraph) (log log2 : List Event)
    (hc : graph_core g0 g log)
    (hlog : ∀ id, has_started log2 id = has_started log id) :
    graph_core g0 g log2 := by
  obtain ⟨knd, gid, dom, deps, P1, P2⟩ := hc
  refine ⟨knd, gid, dom, deps, ?_, ?_⟩
  · intro id t hl hs
    rw [hlog]
    exact P1 id t hl hs
  · intro id t hl hs
    rw [hlog] at hs
    exact P2 id t hl hs

theorem core_update_safe (g0 g : TaskGraph) (log : List Event) (id2 : String)
    (f : Task → Task)
    (hc : graph_core g0 g log)
    (ht : ∀ t, List.lookup id2 g = some t → (t.status = .running ∨ t.status = .cancelled))
    (hf : ∀ t, (f t).dependencies = t.dependencies ∧ (f t).id = t.id) :
    graph_core g0 (g.update id2 f) log := by
  obtain ⟨knd, gid, dom, deps, P1, P2⟩ := hc
  refine ⟨?_, ?_, ?_, ?_, ?_, ?_⟩
  · rw [update_keys]; exact knd
  · intro p hp
    obtain ⟨q, hq, hqe⟩ := mem_update g id2 f p hp
    by_cases hk : q.1 = id2
    · rw [if_pos hk] at hqe
      rw [hqe]
      show (f q.2).id = q.1
      rw [(hf q.2).2]
      exact gid q hq
    · rw [if_neg hk] at hqe
      rw [hqe]
      exact gid q hq
  · intro id t0 h0
    obtain ⟨t, hl⟩ := dom id t0 h0
    rw [lookup_update]
    by_cases hk : id = id2
    · rw [if_pos hk, hl]; exact ⟨f t, rfl⟩
    · rw [if_neg hk]; exact ⟨t, hl⟩
  · intro id t hl
    rw [lookup_update] at hl
    by_cases hk : id = id2
    · rw [if_pos hk] at hl
      cases hg : List.lookup id g with
      | none => rw [hg] at hl; exact absurd hl (by simp)
      | some t1 =>
        rw [hg] at hl
        injection hl with he
        obtain ⟨t0, h0, hd⟩ := deps id t1 hg
        exact ⟨t0, h0, by rw [← he, (hf t1).1, hd]⟩
    · rw [if_neg hk] at hl
      exact deps id t hl
  · intro id t hl hs
    rw [lookup_update] at hl
    by_cases hk : id = id2
    · rw [if_pos hk] at hl
      cases hg : List.lookup id g with
      | none => rw [hg] at hl; exact absurd hl (by simp)
      | some t1 =>
        have h1 : t1.status = .running ∨ t1.status = .cancelled := ht t1 (hk ▸ hg)
        refine P1 id t1 hg ?_
        rcases h1 with h1 | h1 <;> rw [h1] <;> simp
    · rw [if_neg hk] at hl
      exact P1 id t hl hs
  · intro id t hl hs d hd
    have hdeps : ∀ d2 ∈ t.dependencies, ∃ td, List.lookup d2 g = some td ∧
        (td.status = .completed ∨ td.status = .skipped) := by
      rw [lookup_update] at hl
      by_cases hk : id = id2
      · rw [if_pos hk] at hl
        cases hg : List.lookup id g with
        | none => rw [hg] at hl; exact absurd hl (by simp)
        | some t1 =>
          rw [hg] at hl
          injection hl with he
          intro d2 hd2
          refine P2 id t1 hg hs d2 ?_
          rw [← (hf t1).1, he]
          exact hd2
      · rw [if_neg hk] at hl
        exact P2 id t hl hs
    obtain ⟨td, htd, hst⟩ := hdeps d hd
    rw [lookup_update]
    by_cases hk2 : d = id2
    · exfalso
      have := ht td (hk2 ▸ htd)
      rcases hst with h | h <;> rcases this with h2 | h2 <;> rw [h] at h2 <;> simp at h2
    · rw [if_neg hk2]
      exact ⟨td, htd, hst⟩

theorem core_submit (g0 g : TaskGraph) (log : List Event) (id2 : String) (t : Task)
    (ts sq rid : PyVal)
    (hc : graph_core g0 g log)
    (hl : List.lookup id2 g = some t) (hp : t.status = .pending)
    (hdeps : ∀ d ∈ t.dependencies, ∃ td, List.lookup d g = some td ∧
      (td.status = .completed ∨ td.status = .skipped)) :
    graph_core g0 (g.mark_running id2)
      (log ++
        [{ type := .vStr "task.started", timestamp := ts, seq := sq, run_id := rid, data := .vDict [("task_id", .vStr id2)] }]) := by
  obtain ⟨knd, gid, dom, deps, P1, P2⟩ := hc
  have hsl : ∀ id, has_started (log ++
      [{ type := .vStr "task.started", timestamp := ts, seq := sq, run_id := rid, data := .vDict [("task_id", .vStr id2)] }]) id =
      (has_started log id || (id2 == id)) :=
    fun id => has_started_snoc_started log id id2 ts sq rid
  refine ⟨?_, ?_, ?_, ?_, ?_, ?_⟩
  · rw [show TaskGraph.mark_running g id2 = g.update id2 _ from rfl, update_keys]
    exact knd
  · intro p hp2
    obtain ⟨q, hq, hqe⟩ := mem_update g id2 _ p hp2
    by_cases hk : q.1 = id2
    · rw [if_pos hk] at hqe
      rw [hqe]
      exact gid q hq
    · rw [if_neg hk] at hqe
      rw [hqe]
      exact gid q hq
  · intro id t0 h0
    obtain ⟨t1, hl1⟩ := dom id t0 h0
    rw [show TaskGraph.mark_running g id2 = g.update id2 _ from rfl, lookup_update]
    by_cases hk : id = id2
    · rw [if_pos hk, hl1]; exact ⟨_, rfl⟩
    · rw [if_neg hk]; exact ⟨t1, hl1⟩
  · intro id t1 hl1
    rw [show TaskGraph.mark_running g id2 = g.update id2 _ from rfl, lookup_update] at hl1
    by_cases hk : id = id2
    · rw [if_pos hk] at hl1
      cases hg : List.lookup id g with
      | none => rw [hg] at hl1; exact absurd hl1 (by simp)
      | some t2 =>
        rw [hg] at hl1
        injection hl1 with he
        obtain ⟨t0, h0, hd⟩ := deps id t2 hg
        exact ⟨t0, h0, by rw [← he]; exact hd⟩
    · rw [if_neg hk] at hl1
      exact deps id t1 hl1
  · intro id t1 hl1 hne
    rw [hsl]
    by_cases hk : id = id2
    · rw [show (id2 == id) = true by simp [hk]]
      simp
    · rw [show TaskGraph.mark_running g id2 = g.update id2 _ from rfl, lookup_update,
        if_neg hk] at hl1
      rw [P1 id t1 hl1 hne]
      rfl
  · intro id t1 hl1 hst d hd
    rw [show TaskGraph.mark_running g id2 = g.update id2 _ from rfl, lookup_update] at hl1
    have main : ∀ td, List.lookup d g = some td →
        (td.status = .completed ∨ td.status = .skipped) →
        ∃ td2, List.lookup d (g.mark_running id2) = some td2 ∧
          (td2.status = .completed ∨ td2.status = .skipped) := by
      intro td htd hstd
      rw [show TaskGraph.mark_running g id2 = g.update id2 _ from rfl, lookup_update]
      by_cases hk2 : d = id2
      · exfalso
        rw [hk2, hl] at htd
        injection htd with he
        rcases hstd with h | h <;> rw [← he] at h <;> rw [hp] at h <;> simp at h
      · rw [if_neg hk2]
        exact ⟨td, htd, hstd⟩
    by_cases hk : id = id2
    · rw [if_pos hk] at hl1
      rw [hk, hl] at hl1
      injection hl1 with he
      have hd2 : d ∈ t.dependencies := by
        rw [← he] at hd
        exact hd
      obtain ⟨td, htd, hstd⟩ := hdeps d hd2
      exact main td htd hstd
    · rw [if_neg hk] at hl1
      rw [hsl] at hst
      cases hso : has_started log id with
      | true =>
        obtain ⟨td, htd, hstd⟩ := P2 id t1 hl1 hso d hd
        exact main td htd hstd
      | false =>
        rw [hso] at hst
        have : (id2 == id) = true := by simpa using hst
        have : id2 = id := by simpa using this
        exact absurd this.symm hk

theorem inv_emit_any (g0 : TaskGraph) (s : Sched) (ty rid : String)
    (data : List (String × PyVal)) (hty : ty ≠ "task.started")
    (hw : s.writer.sanitize = true) (hcore : graph_core g0 s.graph s.log) :
    (s.emit ty rid data).writer.sanitize = true ∧
    graph_core g0 (s.emit ty rid data).graph (s.emit ty rid data).log ∧
    (s.emit ty rid data).futures = s.futures ∧
    (s.emit ty rid data).should_stop = s.should_stop ∧
    (s.emit ty rid data).graph = s.graph := by
  rw [emit_spec s ty rid data hw]
  exact ⟨rfl,
    core_log_ext g0 s.graph s.log _ hcore
      (fun id => has_started_snoc_other s.log id ty _ _ _ _ hty),
    rfl, rfl, rfl⟩

theorem lookup_eq_status (g : TaskGraph) (id2 : String) (t0 : Task)
    (h : List.lookup id2 g = some t0) :
    ∀ t, List.lookup id2 g = some t → t = t0 := by
  intro t h2
  rw [h] at h2
  injection h2 with he
  exact he.symm

theorem inv_handle (g0 : TaskGraph) (rid : String) (s : Sched) (result : TaskResult)
    (hw : s.writer.sanitize = true) (hcore : graph_core g0 s.graph s.log)
    (ht : ∃ t, List.lookup result.task_id s.graph = some t ∧
      (t.status = .running ∨ t.status = .cancelled)) :
    (ParallelScheduler.handle_result rid s result).writer.sanitize = true ∧
    graph_core g0 (ParallelScheduler.handle_result rid s result).graph
      (ParallelScheduler.handle_result rid s result).log ∧
    (ParallelScheduler.handle_result rid s result).futures = s.futures ∧
    (ParallelScheduler.handle_result rid s result).should_stop = s.should_stop ∧
    (∀ id, id ≠ result.task_id →
      List.lookup id (ParallelScheduler.handle_result rid s result).graph =
        List.lookup id s.graph) := by
  obtain ⟨t0, ht0, hts⟩ := ht
  have htgt : ∀ t, List.lookup result.task_id s.graph = some t →
      (t.status = .running ∨ t.status = .cancelled) := by
    intro t h2
    rw [lookup_eq_status s.graph result.task_id t0 ht0 t h2]
    exact hts
  have hother : ∀ (f : Task → Task) (id : String), id ≠ result.task_id →
      List.lookup id (s.graph.update result.task_id f) = List.lookup id s.graph := by
    intro f id hne
    rw [lookup_update, if_neg hne]
  by_cases h1 : result.status = .completed
  · cases houtp : result.output with
    | none =>
      have hred : ParallelScheduler.handle_result rid s result =
          ({ s with graph := s.graph.mark_completed result.task_id none }).emit
            "task.completed" rid
            [("task_id", .vStr result.task_id), ("output", .vNone),
             ("duration_ms", .vInt result.duration_ms)] := by
        unfold ParallelScheduler.handle_result
        rw [h1, houtp]
        rfl
      have hcoreA : graph_core g0 (s.graph.mark_completed result.task_id none) s.log :=
        core_update_safe g0 s.graph s.log result.task_id _ hcore htgt (fun t => ⟨rfl, rfl⟩)
      have he1 := inv_emit_any g0
        { s with graph := s.graph.mark_completed result.task_id none }
        "task.completed" rid
        [("task_id", .vStr result.task_id), ("output", .vNone),
         ("duration_ms", .vInt result.duration_ms)] (by decide) hw hcoreA
      rw [hred]
      refine ⟨he1.1, he1.2.1, he1.2.2.1, he1.2.2.2.1, ?_⟩
      intro id hne
      rw [he1.2.2.2.2]
      exact hother (fun t => { t with status := .completed, output := none }) id hne
    | some r =>
      have hred : ParallelScheduler.handle_result rid s result =
          (({ s with graph := s.graph.mark_completed result.task_id (some r) }).emit
            "task.completed" rid
            [("task_id", .vStr result.task_id), ("output", r.to_dict),
             ("duration_ms", .vInt result.duration_ms)]).emit
            "artifact.written" rid [("artifact", r.to_dict)] := by
        unfold ParallelScheduler.handle_result
        rw [h1, houtp]
        rfl
      have hcoreA : graph_core g0 (s.graph.mark_completed result.task_id (some r)) s.log :=
        core_update_safe g0 s.graph s.log result.task_id _ hcore htgt (fun t => ⟨rfl, rfl⟩)
      have he1 := inv_emit_any g0
        { s with graph := s.graph.mark_completed result.task_id (some r) }
        "task.completed" rid
        [("task_id", .vStr result.task_id), ("output", r.to_dict),
         ("duration_ms", .vInt result.duration_ms)] (by decide) hw hcoreA
      have he2 := inv_emit_any g0
        (({ s with graph := s.graph.mark_completed result.task_id (some r) }).emit
          "task.completed" rid
          [("task_id", .vStr result.task_id), ("output", r.to_dict),
           ("duration_ms", .vInt result.duration_ms)])
        "artifact.written" rid [("artifact", r.to_dict)] (by decide) he1.1 he1.2.1
      rw [hred]
      refine ⟨he2.1, he2.2.1, ?_, ?_, ?_⟩
      · rw [he2.2.2.1, he1.2.2.1]
      · rw [he2.2.2.2.1, he1.2.2.2.1]
      · intro id hne
        rw [he2.2.2.2.2, he1.2.2.2.2]
        exact hother (fun t => { t with status := .completed, output := some r }) id hne
  · by_cases h2 : result.status = .failed
    · by_cases hcr : s.graph.can_retry result.task_id = true
      · have hred : ParallelScheduler.handle_result rid s result =
            ({ s with graph := s.graph.increment_retry result.task_id }).emit
              "task.retrying" rid
              [("task_id", .vStr result.task_id),
               ("retry_count", .vInt
                 (match (s.graph.increment_retry result.task_id).get_task result.task_id with
                  | some t => (t.retry_count : Int)
                  | none => 0)),
               ("error", optStr result.error)] := by
          unfold ParallelScheduler.handle_result
          rw [h2, hcr]
          rfl
        have hcoreA : graph_core g0 (s.graph.increment_retry result.task_id) s.log :=
          core_update_safe g0 s.graph s.log result.task_id _ hcore htgt (fun t => ⟨rfl, rfl⟩)
        have he1 := inv_emit_any g0
          { s with graph := s.graph.increment_retry result.task_id }
          "task.retrying" rid
          [("task_id", .vStr result.task_id),
           ("retry_count", .vInt
             (match (s.graph.increment_retry result.task_id).get_task result.task_id with
              | some t => (t.retry_count : Int)
              | none => 0)),
           ("error", optStr result.error)] (by decide) hw hcoreA
        rw [hred]
        refine ⟨he1.1, he1.2.1, he1.2.2.1, he1.2.2.2.1, ?_⟩
        intro id hne
        rw [he1.2.2.2.2]
        exact hother (fun t => { t with retry_count := t.retry_count + 1, status := .pending })
          id hne
      · have hcrf : s.graph.can_retry result.task_id = false := by
          cases hcc : s.graph.can_retry result.task_id
          · rfl
          · exact absurd hcc hcr
        have hred : ParallelScheduler.handle_result rid s result =
            ({ s with graph := s.graph.mark_failed result.task_id result.error }).emit
              "task.failed" rid
              [("task_id", .vStr result.task_id), ("error", optStr result.error),
               ("duration_ms", .vInt result.duration_ms)] := by
          unfold ParallelScheduler.handle_result
          rw [h2, hcrf]
          rfl
        have hcoreA : graph_core g0 (s.graph.mark_failed result.task_id result.error) s.log :=
          core_update_safe g0 s.graph s.log result.task_id _ hcore htgt (fun t => ⟨rfl, rfl⟩)
        have he1 := inv_emit_any g0
          { s with graph := s.graph.mark_failed result.task_id result.error }
          "task.failed" rid
          [("task_id", .vStr result.task_id), ("error", optStr result.error),
           ("duration_ms", .vInt result.duration_ms)] (by decide) hw hcoreA
        rw [hred]
        refine ⟨he1.1, he1.2.1, he1.2.2.1, he1.2.2.2.1, ?_⟩
        intro id hne
        rw [he1.2.2.2.2]
        exact hother (fun t => { t with status := .failed, error := result.error }) id hne
    · have hred : ParallelScheduler.handle_result rid s result = s := by
        unfold ParallelScheduler.handle_result
        rw [show (result.status == TaskStatus.completed) = false by
            cases hst : result.status <;> simp_all,
          show (result.status == TaskStatus.failed) = false by
            cases hst : result.status <;> simp_all]
        rfl
      rw [hred]
      exact ⟨hw, hcore, rfl, rfl, fun id _ => rfl⟩

theorem inv_emit (g0 : TaskGraph) (s : Sched) (ty rid : String)
    (data : List (String × PyVal)) (hty : ty ≠ "task.started")
    (hinv : sched_inv g0 s) : sched_inv g0 (s.emit ty rid data) := by
  obtain ⟨hw, hcore, fnd, fid, fstat⟩ := hinv
  have he := inv_emit_any g0 s ty rid data hty hw hcore
  refine ⟨he.1, he.2.1, ?_, ?_, ?_⟩
  · rw [he.2.2.1]; exact fnd
  · intro p hp; rw [he.2.2.1] at hp; exact fid p hp
  · intro p hp
    rw [he.2.2.1] at hp
    obtain ⟨t, hl, hs⟩ := fstat p hp
    exact ⟨t, by rw [he.2.2.2.2]; exact hl, hs⟩

theorem ready_facts (g : TaskGraph) (knd : (g.map Prod.fst).Nodup)
    (gid : ∀ p ∈ g, (p.2 : Task).id = p.1) :
    ∀ t ∈ g.get_ready_tasks, List.lookup t.id g = some t ∧ t.status = .pending ∧
      ∀ d ∈ t.dependencies, ∃ td, List.lookup d g = some td ∧
        (td.status = .completed ∨ td.status = .skipped) := by
  intro t ht
  obtain ⟨hm, hst, hdeps⟩ := (mem_get_ready_tasks g t).mp ht
  obtain ⟨p, hp, hpe⟩ := List.mem_map.mp hm
  have hmem : (t.id, t) ∈ g := by
    obtain ⟨a, b⟩ := p
    have hb : b = t := hpe
    subst hb
    have ha : a = b.id := (gid _ hp).symm
    subst ha
    exact hp
  exact ⟨lookup_of_mem_nodup g t.id t hmem knd, hst, hdeps⟩

theorem ready_ids_nodup (g : TaskGraph) (knd : (g.map Prod.fst).Nodup)
    (gid : ∀ p ∈ g, (p.2 : Task).id = p.1) :
    ((g.get_ready_tasks).map Task.id).Nodup := by
  have hsub : List.Sublist ((g.get_ready_tasks).map Task.id) ((g.map Prod.snd).map Task.id) :=
    (List.filter_sublist _).map Task.id
  have he : (g.map Prod.snd).map Task.id = g.map Prod.fst := by
    rw [List.map_map]
    exact List.map_congr_left fun p hp => gid p hp
  rw [he] at hsub
  exact knd.sublist hsub

theorem inv_submit_one (g0 : TaskGraph) (run_id : String) (exec : Task → TaskResult)
    (hexec : ∀ t, (exec t).task_id = t.id) (s : Sched) (t : Task)
    (hinv : sched_inv g0 s)
    (hl : List.lookup t.id s.graph = some t) (hp : t.status = .pending)
    (hdeps : ∀ d ∈ t.dependencies, ∃ td, List.lookup d s.graph = some td ∧
      (td.status = .completed ∨ td.status = .skipped)) :
    sched_inv g0 (Sched.submit_one run_id exec s t) ∧
    (Sched.submit_one run_id exec s t).should_stop = s.should_stop ∧
    (Sched.submit_one run_id exec s t).graph = s.graph.mark_running t.id := by
  obtain ⟨hw, hcore, fnd, fid, fstat⟩ := hinv
  have hred : Sched.submit_one run_id exec s t =
      { s with
        graph := s.graph.mark_running t.id,
        futures := s.futures ++ [(t.id, exec t)],
        writer := { seq := s.writer.seq + 1, sanitize := true },
        log := s.log ++
          [{ type := .vStr "task.started", timestamp := .vStr "", seq := .vInt (s.writer.seq + 1), run_id := .vStr run_id, data := .vDict [("task_id", .vStr t.id)] }] } := by
    unfold Sched.submit_one
    dsimp only
    rw [emit_spec { s with graph := s.graph.mark_running t.id } "task.started" run_id
      [("task_id", .vStr t.id)] hw, sanitize_taskid]
  have hlu : ∀ id, List.lookup id (s.graph.mark_running t.id) =
      if id = t.id then (List.lookup id s.graph).map (fun tk => { tk with status := TaskStatus.running })
      else List.lookup id s.graph :=
    fun id => lookup_update s.graph t.id id _
  have hnotin : t.id ∉ s.futures.map Prod.fst := by
    intro hmem
    obtain ⟨p, hpm, hpe⟩ := List.mem_map.mp hmem
    obtain ⟨t', hl', hs'⟩ := fstat p hpm
    rw [hpe] at hl'
    rw [hl] at hl'
    injection hl' with he
    rw [← he] at hs'
    rcases hs' with h | h <;> rw [hp] at h <;> simp at h
  rw [hred]
  refine ⟨⟨rfl, ?_, ?_, ?_, ?_⟩, rfl, rfl⟩
  · exact core_submit g0 s.graph s.log t.id t (.vStr "") (.vInt (s.writer.seq + 1))
      (.vStr run_id) hcore hl hp hdeps
  · rw [List.map_append, List.nodup_append]
    refine ⟨fnd, List.nodup_singleton _, ?_⟩
    intro a ha hb
    simp only [List.map_cons, List.map_nil, List.mem_singleton] at hb
    rw [hb] at ha
    exact hnotin ha
  · intro p hpm
    rcases List.mem_append.mp hpm with h | h
    · exact fid p h
    · rw [List.mem_singleton] at h
      rw [h]
      exact hexec t
  · intro p hpm
    rcases List.mem_append.mp hpm with h | h
    · obtain ⟨t', hl', hs'⟩ := fstat p h
      by_cases hpe : p.1 = t.id
      · refine ⟨{ t' with status := .running }, ?_, Or.inl rfl⟩
        rw [hlu p.1, if_pos hpe, hl']
        rfl
      · exact ⟨t', by rw [hlu p.1, if_neg hpe]; exact hl', hs'⟩
    · rw [List.mem_singleton] at h
      subst h
      refine ⟨{ t with status := .running }, ?_, Or.inl rfl⟩
      show List.lookup t.id (s.graph.mark_running t.id) = _
      rw [hlu t.id, if_pos rfl, hl]
      rfl

theorem inv_submit_ready (g0 : TaskGraph) (run_id : String) (exec : Task → TaskResult)
    (maxW : Nat) (hexec : ∀ t, (exec t).task_id = t.id) :
    ∀ (ready : List Task) (s : Sched), sched_inv g0 s →
      ((ready.map Task.id).Nodup) →
      (∀ t ∈ ready, List.lookup t.id s.graph = some t ∧ t.status = .pending ∧
        ∀ d ∈ t.dependencies, ∃ td, List.lookup d s.graph = some td ∧
          (td.status = .completed ∨ td.status = .skipped)) →
      sched_inv g0 (Sched.submit_ready run_id exec maxW ready s) ∧
      (Sched.submit_ready run_id exec maxW ready s).should_stop = s.should_stop := by
  intro ready
  induction ready with
  | nil => intro s hinv _ _; exact ⟨hinv, rfl⟩
  | cons t rest ih =>
    intro s hinv hnd hfacts
    rw [List.map_cons, List.nodup_cons] at hnd
    have hstep : Sched.submit_ready run_id exec maxW (t :: rest) s =
        Sched.submit_ready run_id exec maxW rest
          (if maxW ≤ s.futures.length then s else s.submit_one run_id exec t) := by
      unfold Sched.submit_ready
      rw [List.foldl_cons]
    rw [hstep]
    by_cases hg : maxW ≤ s.futures.length
    · rw [if_pos hg]
      exact ih s hinv hnd.2 (fun t' ht' => hfacts t' (List.mem_cons_of_mem _ ht'))
    · rw [if_neg hg]
      obtain ⟨hft, hfp, hfd⟩ := hfacts t (List.mem_cons_self _ _)
      obtain ⟨hinv1, hss1, hg1⟩ := inv_submit_one g0 run_id exec hexec s t hinv hft hfp hfd
      have hlu : ∀ id, id ≠ t.id →
          List.lookup id (s.submit_one run_id exec t).graph = List.lookup id s.graph := by
        intro id hne2
        rw [hg1]
        rw [show s.graph.mark_running t.id =
          s.graph.update t.id (fun tk => { tk with status := TaskStatus.running }) from rfl]
        rw [lookup_update, if_neg hne2]
      have hfacts1 : ∀ t' ∈ rest,
          List.lookup t'.id (s.submit_one run_id exec t).graph = some t' ∧
          t'.status = .pending ∧ ∀ d ∈ t'.dependencies,
            ∃ td, List.lookup d (s.submit_one run_id exec t).graph = some td ∧
              (td.status = .completed ∨ td.status = .skipped) := by
        intro t' ht'
        obtain ⟨hl', hp', hd'⟩ := hfacts t' (List.mem_cons_of_mem _ ht')
        have hne : t'.id ≠ t.id := by
          intro he
          exact hnd.1 (he ▸ List.mem_map.mpr ⟨t', ht', rfl⟩)
        refine ⟨by rw [hlu t'.id hne]; exact hl', hp', ?_⟩
        intro d hd
        obtain ⟨td, hld, hsd⟩ := hd' d hd
        have hdne : d ≠ t.id := by
          intro he
          rw [he] at hld
          rw [hft] at hld
          injection hld with he2
          rcases hsd with h | h <;> rw [← he2] at h <;> rw [hfp] at h <;> simp at h
        exact ⟨td, by rw [hlu d hdne]; exact hld, hsd⟩
      obtain ⟨hinvF, hssF⟩ := ih (s.submit_one run_id exec t) hinv1 hnd.2 hfacts1
      exact ⟨hinvF, by rw [hssF, hss1]⟩

theorem inv_harvest (g0 : TaskGraph) (run_id : String) (s1 : Sched) (k : Nat)
    (tid : String) (result : TaskResult) (post : List (String × TaskResult))
    (hinv1 : sched_inv g0 s1)
    (hdrop : s1.futures.drop k = (tid, result) :: post) :
    sched_inv g0 (ParallelScheduler.handle_result run_id
      { s1 with futures := s1.futures.take k ++ post,
                results := upsertStr s1.results tid result } result) ∧
    (ParallelScheduler.handle_result run_id
      { s1 with futures := s1.futures.take k ++ post,
                results := upsertStr s1.results tid result } result).should_stop
      = s1.should_stop := by
  obtain ⟨hw1, hcore1, fnd1, fid1, fstat1⟩ := hinv1
  have hsplit : s1.futures = s1.futures.take k ++ (tid, result) :: post := by
    conv_lhs => rw [← List.take_append_drop k s1.futures]
    rw [hdrop]
  have hmemf : (tid, result) ∈ s1.futures := by
    rw [hsplit]
    exact List.mem_append_right _ (List.mem_cons_self _ _)
  have htid : result.task_id = tid := fid1 _ hmemf
  have hnd0 : ((s1.futures.take k).map Prod.fst ++ tid :: post.map Prod.fst).Nodup := by
    have h0 := fnd1
    rw [hsplit, List.map_append, List.map_cons] at h0
    exact h0
  have hnd1 : (tid :: ((s1.futures.take k).map Prod.fst ++ post.map Prod.fst)).Nodup := by
    rw [← List.nodup_middle]
    exact hnd0
  rw [List.nodup_cons] at hnd1
  have hmem_sub : ∀ p, p ∈ s1.futures.take k ++ post → p ∈ s1.futures := by
    intro p hp
    rw [hsplit]
    rcases List.mem_append.mp hp with h | h
    · exact List.mem_append_left _ h
    · exact List.mem_append_right _ (List.mem_cons_of_mem _ h)
  have hne : ∀ p, p ∈ s1.futures.take k ++ post → p.1 ≠ tid := by
    intro p hp he
    apply hnd1.1
    rw [← he]
    rcases List.mem_append.mp hp with h | h
    · exact List.mem_append_left _ (List.mem_map.mpr ⟨p, h, rfl⟩)
    · exact List.mem_append_right _ (List.mem_map.mpr ⟨p, h, rfl⟩)
  obtain ⟨tt, htl, hts⟩ := fstat1 _ hmemf
  have hh := inv_handle g0 run_id
    { s1 with futures := s1.futures.take k ++ post,
              results := upsertStr s1.results tid result } result hw1 hcore1
    ⟨tt, by rw [htid]; exact htl, hts⟩
  refine ⟨⟨hh.1, hh.2.1, ?_, ?_, ?_⟩, ?_⟩
  · rw [hh.2.2.1]
    show ((s1.futures.take k ++ post).map Prod.fst).Nodup
    rw [List.map_append]
    exact hnd1.2
  · intro p hp
    rw [hh.2.2.1] at hp
    exact fid1 p (hmem_sub p hp)
  · intro p hp
    rw [hh.2.2.1] at hp
    obtain ⟨tp, hpl, hps⟩ := fstat1 p (hmem_sub p hp)
    refine ⟨tp, ?_, hps⟩
    rw [hh.2.2.2.2 p.1 (by rw [htid]; exact hne p hp)]
    exact hpl
  · rw [hh.2.2.2.1]

theorem cancel_status_step (g : TaskGraph) (q : String)
    (L : List (String × TaskResult))
    (h : ∀ p ∈ L, ∃ t, List.lookup p.1 g = some t ∧
      (t.status = .running ∨ t.status = .cancelled)) :
    ∀ p ∈ L, ∃ t, List.lookup p.1 (g.mark_cancelled q) = some t ∧
      (t.status = .running ∨ t.status = .cancelled) := by
  intro p hp
  obtain ⟨t, hl, hs⟩ := h p hp
  have hlu : ∀ id, List.lookup id (g.mark_cancelled q) =
      if id = q then (List.lookup id g).map (fun tk => { tk with status := TaskStatus.cancelled })
      else List.lookup id g :=
    fun id => lookup_update g q id _
  by_cases hpe : p.1 = q
  · refine ⟨{ t with status := .cancelled }, ?_, Or.inr rfl⟩
    rw [hlu p.1, if_pos hpe, hl]
    rfl
  · exact ⟨t, by rw [hlu p.1, if_neg hpe]; exact hl, hs⟩

theorem inv_cancel_fold (g0 : TaskGraph) (log : List Event)
    (L : List (String × TaskResult)) :
    ∀ (l : List (String × TaskResult)) (g : TaskGraph),
      graph_core g0 g log →
      (∀ p ∈ l, ∃ t, List.lookup p.1 g = some t ∧
        (t.status = .running ∨ t.status = .cancelled)) →
      (∀ p ∈ L, ∃ t, List.lookup p.1 g = some t ∧
        (t.status = .running ∨ t.status = .cancelled)) →
      graph_core g0 (l.foldl (fun g p => TaskGraph.mark_cancelled g p.1) g) log ∧
      (∀ p ∈ L, ∃ t,
        List.lookup p.1 (l.foldl (fun g p => TaskGraph.mark_cancelled g p.1) g) = some t ∧
        (t.status = .running ∨ t.status = .cancelled)) := by
  intro l
  induction l with
  | nil => intro g hcore _ hL; exact ⟨hcore, hL⟩
  | cons p rest ih =>
    intro g hcore hl hL
    rw [List.foldl_cons]
    have hcore1 : graph_core g0 (g.mark_cancelled p.1) log := by
      refine core_update_safe g0 g log p.1
        (fun t => { t with status := TaskStatus.cancelled }) hcore ?_ (fun t => ⟨rfl, rfl⟩)
      intro t hlt
      obtain ⟨t', hl', hs'⟩ := hl p (List.mem_cons_self _ _)
      rw [hl'] at hlt
      injection hlt with he
      rw [← he]
      exact hs'
    exact ih (g.mark_cancelled p.1) hcore1
      (cancel_status_step g p.1 rest (fun q hq => hl q (List.mem_cons_of_mem _ hq)))
      (cancel_status_step g p.1 L hL)

theorem inv_cancel_state (g0 : TaskGraph) (s2 : Sched) (hinv2 : sched_inv g0 s2) :
    sched_inv g0
      { s2 with
        graph := s2.futures.foldl (fun g p => TaskGraph.mark_cancelled g p.1) s2.graph,
        should_stop := true } := by
  obtain ⟨hw, hcore, fnd, fid, fstat⟩ := hinv2
  obtain ⟨hcoreF, hstatF⟩ :=
    inv_cancel_fold g0 s2.log s2.futures s2.futures s2.graph hcore fstat fstat
  exact ⟨hw, hcoreF, fnd, fid, hstatF⟩

theorem inv_loop (g0 : TaskGraph) (run_id : String) (exec : Task → TaskResult)
    (oracle : Nat → Nat) (maxW : Nat) (ff : Bool)
    (hexec : ∀ t, (exec t).task_id = t.id) :
    ∀ (fuel : Nat) (s : Sched), sched_inv g0 s →
      sched_inv g0 (ParallelScheduler.schedule_loop run_id exec oracle maxW ff fuel s) := by
  intro fuel
  induction fuel with
  | zero => intro s hinv; exact hinv
  | succ fuel ih =>
    intro s hinv
    simp only [ParallelScheduler.schedule_loop]
    by_cases hdone : (s.graph.is_all_done || s.should_stop) = true
    · rw [if_pos hdone]; exact hinv
    · rw [if_neg hdone]
      have knd := hinv.2.1.1
      have gid := hinv.2.1.2.1
      obtain ⟨hinv1, hss1⟩ := inv_submit_ready g0 run_id exec maxW hexec
        s.graph.get_ready_tasks s hinv (ready_ids_nodup s.graph knd gid)
        (ready_facts s.graph knd gid)
      by_cases hemp :
          (Sched.submit_ready run_id exec maxW s.graph.get_ready_tasks s).futures.isEmpty = true
      · rw [if_pos hemp]
        by_cases hre : s.graph.get_ready_tasks.isEmpty = true
        · rw [if_pos hre]; exact hinv1
        · rw [if_neg hre]; exact ih _ hinv1
      · rw [if_neg hemp]
        cases hdrop : (Sched.submit_ready run_id exec maxW s.graph.get_ready_tasks s).futures.drop
            (oracle fuel %
              (Sched.submit_ready run_id exec maxW s.graph.get_ready_tasks s).futures.length) with
        | nil =>
          exact hinv1
        | cons hd post =>
          obtain ⟨tid, result⟩ := hd
          obtain ⟨hinv2, hss2⟩ := inv_harvest g0 run_id
            (Sched.submit_ready run_id exec maxW s.graph.get_ready_tasks s)
            (oracle fuel %
              (Sched.submit_ready run_id exec maxW s.graph.get_ready_tasks s).futures.length)
            tid result post hinv1 hdrop
          dsimp only
          by_cases hffc : (ff && result.status == TaskStatus.failed) = true
          · rw [if_pos hffc]
            exact ih _ (inv_cancel_state g0 _ hinv2)
          · rw [if_neg hffc]
            exact ih _ hinv2

theorem init_graph_props :
    ∀ (tasks : List Task) (g : TaskGraph),
      ((g.map Prod.fst).Nodup) →
      (∀ p ∈ g, (p.2 : Task).id = p.1) →
      (∀ p ∈ g, (p.2 : Task).status = .pending) →
      (∀ t ∈ tasks, t.status = .pending) →
      (((tasks.foldl TaskGraph.add_task g).map Prod.fst).Nodup) ∧
      (∀ p ∈ tasks.foldl TaskGraph.add_task g, (p.2 : Task).id = p.1) ∧
      (∀ p ∈ tasks.foldl TaskGraph.add_task g, (p.2 : Task).status = .pending) := by
  intro tasks
  induction tasks with
  | nil => intro g hnd hid hst _; exact ⟨hnd, hid, hst⟩
  | cons t rest ih =>
    intro g hnd hid hst hpend
    rw [List.foldl_cons]
    refine ih (g.add_task t) (upsert_keys_nodup g t.id t hnd) ?_ ?_
      (fun t' ht' => hpend t' (List.mem_cons_of_mem _ ht'))
    · intro p hp
      rcases mem_upsert g t.id t p hp with h | h
      · exact hid p h
      · rw [h.2, ← h.1]
    · intro p hp
      rcases mem_upsert g t.id t p hp with h | h
      · exact hst p h
      · rw [h.2]
        exact hpend t (List.mem_cons_self _ _)

theorem inv_start (tasks : List Task) (hpend : ∀ t ∈ tasks, t.status = .pending) :
    sched_inv (tasks.foldl TaskGraph.add_task [])
      { graph := tasks.foldl TaskGraph.add_task [] } := by
  obtain ⟨hnd, hid, hst⟩ := init_graph_props tasks []
    List.nodup_nil (fun p hp => absurd hp (List.not_mem_nil p))
    (fun p hp => absurd hp (List.not_mem_nil p)) hpend
  refine ⟨rfl, ⟨hnd, hid, ?_, ?_, ?_, ?_⟩, List.nodup_nil, ?_, ?_⟩
  · intro id t0 h
    exact ⟨t0, h⟩
  · intro id t h
    exact ⟨t, h, rfl⟩
  · intro id t hl hs
    exact absurd (hst (id, t) (lookup_mem _ id t hl)) hs
  · intro id t hl hs
    exact absurd hs (by intro h; exact Bool.noConfusion h)
  · intro p hp
    exact absurd hp (List.not_mem_nil p)
  · intro p hp
    exact absurd hp (List.not_mem_nil p)

theorem inv_created_fold (g0 : TaskGraph) (run_id : String) :
    ∀ (ts : List Task) (s : Sched), sched_inv g0 s →
      sched_inv g0 (ts.foldl (fun s t => s.emit "task.created" run_id
        [("task_id", .vStr t.id), ("name", .vStr t.name),
         ("dependencies", .vList (t.dependencies.map PyVal.vStr)),
         ("parallel_group", .vInt t.parallel_group)]) s) := by
  intro ts
  induction ts with
  | nil => intro s hinv; exact hinv
  | cons t rest ih =>
    intro s hinv
    rw [List.foldl_cons]
    exact ih _ (inv_emit g0 s "task.created" run_id _ (by decide) hinv)

theorem inv_drain (g0 : TaskGraph) (run_id : String) :
    ∀ (l : List (String × TaskResult)) (s : Sched),
      s.writer.sanitize = true →
      graph_core g0 s.graph s.log →
      (∀ p ∈ l, (p.2 : TaskResult).task_id = p.1) →
      ((l.map Prod.fst).Nodup) →
      (∀ p ∈ l, ∃ t, List.lookup p.1 s.graph = some t ∧
        (t.status = .running ∨ t.status = .cancelled)) →
      graph_core g0
        (l.foldl (fun s p => ParallelScheduler.handle_result run_id
          { s with results := upsertStr s.results p.1 p.2 } p.2) s).graph
        (l.foldl (fun s p => ParallelScheduler.handle_result run_id
          { s with results := upsertStr s.results p.1 p.2 } p.2) s).log := by
  intro l
  induction l with
  | nil => intro s _ hcore _ _ _; exact hcore
  | cons p rest ih =>
    intro s hw hcore hfid hnd hfstat
    rw [List.foldl_cons]
    rw [List.map_cons, List.nodup_cons] at hnd
    obtain ⟨t0, hl0, hs0⟩ := hfstat p (List.mem_cons_self _ _)
    have hfidp : p.2.task_id = p.1 := hfid p (List.mem_cons_self _ _)
    have hh := inv_handle g0 run_id { s with results := upsertStr s.results p.1 p.2 } p.2
      hw hcore ⟨t0, by rw [hfidp]; exact hl0, hs0⟩
    apply ih
    · exact hh.1
    · exact hh.2.1
    · exact fun q hq => hfid q (List.mem_cons_of_mem _ hq)
    · exact hnd.2
    · intro q hq
      obtain ⟨tq, hlq, hsq⟩ := hfstat q (List.mem_cons_of_mem _ hq)
      have hqne : q.1 ≠ p.2.task_id := by
        rw [hfidp]
        intro he
        exact hnd.1 (he ▸ List.mem_map.mpr ⟨q, hq, rfl⟩)
      exact ⟨tq, by rw [hh.2.2.2.2 q.1 hqne]; exact hlq, hsq⟩

theorem schedule_core (run_id : String) (exec : Task → TaskResult) (oracle : Nat → Nat)
    (maxW : Nat) (ff : Bool) (fuel : Nat) (tasks : List Task)
    (hexec : ∀ t, (exec t).task_id = t.id)
    (hpend : ∀ t ∈ tasks, t.status = .pending) :
    graph_core (tasks.foldl TaskGraph.add_task [])
      (ParallelScheduler.schedule run_id exec oracle maxW ff fuel tasks).graph
      (ParallelScheduler.schedule run_id exec oracle maxW ff fuel tasks).log := by
  have hcreated := inv_created_fold (tasks.foldl TaskGraph.add_task []) run_id tasks
    { graph := tasks.foldl TaskGraph.add_task [] } (inv_start tasks hpend)
  have hloop := inv_loop (tasks.foldl TaskGraph.add_task []) run_id exec oracle maxW ff
    hexec fuel _ hcreated
  obtain ⟨hwL, hcoreL, fndL, fidL, fstatL⟩ := hloop
  have hdr := inv_drain (tasks.foldl TaskGraph.add_task []) run_id
    (ParallelScheduler.schedule_loop run_id exec oracle maxW ff fuel
      (tasks.foldl (fun s t => s.emit "task.created" run_id
        [("task_id", .vStr t.id), ("name", .vStr t.name),
         ("dependencies", .vList (t.dependencies.map PyVal.vStr)),
         ("parallel_group", .vInt t.parallel_group)])
        { graph := tasks.foldl TaskGraph.add_task [] })).futures
    (ParallelScheduler.schedule_loop run_id exec oracle maxW ff fuel
      (tasks.foldl (fun s t => s.emit "task.created" run_id
        [("task_id", .vStr t.id), ("name", .vStr t.name),
         ("dependencies", .vList (t.dependencies.map PyVal.vStr)),
         ("parallel_group", .vInt t.parallel_group)])
        { graph := tasks.foldl TaskGraph.add_task [] }))
    hwL hcoreL fidL fndL fstatL
  exact hdr

theorem blocked_one (g0 g : TaskGraph) (log : List Event) (hc : graph_core g0 g log)
    (T d : String) (t : Task)
    (hT0 : List.lookup T g0 = some t) (hd : d ∈ t.dependencies)
    (hdbad : ∀ td, List.lookup d g = some td →
      ¬(td.status = .completed ∨ td.status = .skipped)) :
    ∃ tT, List.lookup T g = some tT ∧ tT.status = .pending ∧ has_started log T = false := by
  obtain ⟨knd, gid, dom, deps, P1, P2⟩ := hc
  obtain ⟨tT, hTl⟩ := dom T t hT0
  have hns : has_started log T = false := by
    cases hstt : has_started log T with
    | false => rfl
    | true =>
      obtain ⟨t0, hT0', hdeq⟩ := deps T tT hTl
      rw [hT0] at hT0'
      injection hT0' with he0
      have hdmem : d ∈ tT.dependencies := by
        rw [hdeq, ← he0]
        exact hd
      obtain ⟨td, hld, hsd⟩ := P2 T tT hTl hstt d hdmem
      exact absurd hsd (hdbad td hld)
  refine ⟨tT, hTl, ?_, hns⟩
  by_contra hp
  have hst := P1 T tT hTl hp
  rw [hns] at hst
  exact Bool.noConfusion hst

theorem blocked_chain (g0 g : TaskGraph) (log : List Event) (hc : graph_core g0 g log) :
    ∀ T A, depends_on g0 T A →
      (∀ tA, List.lookup A g = some tA →
        ¬(tA.status = .completed ∨ tA.status = .skipped)) →
      ∃ tT, List.lookup T g = some tT ∧ tT.status = .pending ∧
        has_started log T = false := by
  intro T A hdep
  induction hdep with
  | direct hx hy =>
    intro hbad
    exact blocked_one g0 g log hc _ _ _ hx hy hbad
  | step hx hy hdep2 ih =>
    intro hbad
    obtain ⟨ty', hly, hpy, hsy⟩ := ih hbad
    refine blocked_one g0 g log hc _ _ _ hx hy ?_
    intro td hld
    rw [hly] at hld
    injection hld with he
    intro hcon
    rcases hcon with h | h <;> rw [← he, hpy] at h <;> exact TaskStatus.noConfusion h

/-- C6 (corrected): the spec's fail-fast cancellation does not hold as
stated.  When the scheduler runs with `fail_fast := true` over
initially-pending tasks under a conforming executor and some task `A` ends
the pass terminally `failed`, every task `T` that transitively depends on
`A` is indeed never transitioned to running (no `task.started` event is
emitted for it), but it finishes the pass still `pending` — it is not
marked `cancelled`: the fail-fast branch cancels only futures in flight at
the moment of the failure, and a dependent of a failed task was never
submitted. -/
theorem fail_fast_dependents_amended (run_id : String) (exec : Task → TaskResult)
    (oracle : Nat → Nat) (maxW : Nat) (fuel : Nat) (tasks : List Task)
    (hexec : ∀ t, (exec t).task_id = t.id)
    (hpend : ∀ t ∈ tasks, t.status = .pending)
    (T A : String)
    (hdep : depends_on (tasks.foldl TaskGraph.add_task []) T A)
    (hA : (List.lookup A
      (ParallelScheduler.schedule run_id exec oracle maxW true fuel tasks).graph).map
        Task.status = some TaskStatus.failed) :
    ∃ tT, List.lookup T
        (ParallelScheduler.schedule run_id exec oracle maxW true fuel tasks).graph
        = some tT ∧
      tT.status = .pending ∧
      has_started (ParallelScheduler.schedule run_id exec oracle maxW true fuel tasks).log T
        = false := by
  have hc := schedule_core run_id exec oracle maxW true fuel tasks hexec hpend
  apply blocked_chain _ _ _ hc T A hdep
  intro tA hlA
  rw [hlA] at hA
  rw [Option.map_some'] at hA
  injection hA with hAf
  intro hcon
  rcases hcon with h | h <;> rw [hAf] at h <;> exact TaskStatus.noConfusion h

/-- Concrete witness for the amended C6 theorem: "B" depends on "A", the
stub executor injects a terminal failure into "A" (`max_retries = 0`),
fail-fast is on, and "B" ends the pass `pending`, never started. -/
theorem fail_fast_dependents_amended_witness :
    ∃ tT, List.lookup "B"
        (ParallelScheduler.schedule "run" exec0 (fun _ => 0) 4 true 8 [taskA, taskB]).graph
        = some tT ∧
      tT.status = .pending ∧
      has_started
        (ParallelScheduler.schedule "run" exec0 (fun _ => 0) 4 true 8 [taskA, taskB]).log "B"
        = false :=
  fail_fast_dependents_amended "run" exec0 (fun _ => 0) 4 8 [taskA, taskB]
    (fun t => by unfold exec0; split <;> rfl)
    (by decide)
    "B" "A"
    (@depends_on.direct ([taskA, taskB].foldl TaskGraph.add_task []) "B" "A" taskB rfl
      (by decide))
    rfl

/-- C6 counterexample to the claim as written: in the fail-fast pass
`final6`, task "A" fails terminally, yet its dependent "B" ends the pass
with status `pending` — not `cancelled` — and no `task.started` event was
emitted for "B" (while one was emitted for "A"). -/
theorem fail_fast_cancel_counterexample :
    (List.lookup "A" final6.graph).map Task.status = some TaskStatus.failed ∧
    (List.lookup "B" final6.graph).map Task.status = some TaskStatus.pending ∧
    (List.lookup "B" final6.graph).map Task.status ≠ some TaskStatus.cancelled ∧
    has_started final6.log "B" = false ∧
    has_started final6.log "A" = true :=
  ⟨rfl, rfl, by decide, rfl, rfl⟩

/-- C5 (confirmed): `get_ready_tasks` returns exactly the tasks that are
pending and whose every dependency id maps to an existing task that is
completed or skipped; a failed or absent dependency is never considered
satisfied. -/
theorem get_ready_tasks_characterization (g : TaskGraph) (t : Task) :
    t ∈ g.get_ready_tasks ↔
      t ∈ g.map Prod.snd ∧ t.status = .pending ∧
      ∀ dep ∈ t.dependencies, ∃ td, List.lookup dep g = some td ∧
        (td.status = .completed ∨ td.status = .skipped) :=
  mem_get_ready_tasks g t

end SimpleRig
